import Mathlib

/-!
Verification development for the YT_Downloader repository.

The repository's core is:
  * `extractVideoId` — a chain of six JavaScript regular expressions shared
    (verbatim) by the `/info` route (`src/unnamed/part_000`) and the
    `/download` route (`src/src/app/api/download/route.ts`);
  * the `/info` GET handler — primary provider (Rapid API) with an oEmbed
    fallback, a format normalizer and a quality comparator sort;
  * the `/download` GET handler — a redirect-URL builder.

We embed the JavaScript regular-expression semantics needed by the six
patterns (ordered alternation, greedy quantifiers over single-character
classes, one capturing group, leftmost-match scanning, the `i` flag for
ASCII literals) as a small backtracking engine producing the full list of
backtracking outcomes in JS preference order; the first element of that
list is the match JS reports.  Strings are `List Char` internally.
-/

/-- JS `i`-flag matching of a pattern character `p` against an input
character `d`.  ECMAScript canonicalisation maps characters through
`toUpperCase`; for an ASCII pattern character this accepts exactly the
character itself and (for a lowercase letter) its uppercase form.  All
literal characters in the six patterns are ASCII. -/
def upperAscii (c : Char) : Char :=
  if 'a' ≤ c && c ≤ 'z' then Char.ofNat (c.toNat - 32) else c

def eqCI (p d : Char) : Bool := d = p || d = upperAscii p

/-- Match a literal character sequence (case-insensitively) against the
front of the input; `some (consumed, rest)` on success. -/
def strRun : List Char → List Char → Option (List Char × List Char)
  | [], s => some ([], s)
  | _ :: _, [] => none
  | c :: cs, d :: s =>
    if eqCI c d then (strRun cs s).map (fun x => (d :: x.1, x.2)) else none

/-- All outcomes of a greedy `*` over a single-character class `p`,
longest first (JS greedy backtracking order): pairs (consumed, rest). -/
def starRun (p : Char → Bool) : List Char → List (List Char × List Char)
  | [] => [([], [])]
  | c :: s =>
    if p c then ((starRun p s).map (fun x => (c :: x.1, x.2))) ++ [([], c :: s)]
    else [([], c :: s)]

/-- Match exactly `n` characters of class `p` (JS `{n}` over a class). -/
def repRun (p : Char → Bool) : Nat → List Char → Option (List Char × List Char)
  | 0, s => some ([], s)
  | _ + 1, [] => none
  | n + 1, c :: s =>
    if p c then (repRun p n s).map (fun x => (c :: x.1, x.2)) else none

/-- Regular-expression fragments used by the six patterns.  Quantifiers in
the patterns only ever apply to single-character classes (`[^\/]+`, `.+`,
`.*`) or to one literal string (`(?:mbed)?`), and each pattern has exactly
one capturing group, of the form `([class]{n})`; the constructors mirror
exactly that. -/
inductive RE where
  | str (cs : List Char)               -- literal sequence (case-insensitive)
  | cls (p : Char → Bool)              -- single-character class
  | rep (p : Char → Bool) (n : Nat)    -- `[class]{n}`
  | grp (p : Char → Bool) (n : Nat)    -- capturing group `([class]{n})`
  | star (p : Char → Bool)             -- greedy `[class]*`
  | plus (p : Char → Bool)             -- greedy `[class]+`
  | opt (cs : List Char)               -- greedy `(?:literal)?`
  | seq (a b : RE)
  | alt (a b : RE)

/-- A backtracking outcome: consumed characters, remaining input, and the
contents of capture group 1 if it participated. -/
abbrev MOut := List Char × List Char × Option (List Char)

def orElse2 (a b : Option (List Char)) : Option (List Char) :=
  match a with
  | some x => some x
  | none => b

def catMap (f : α → List β) : List α → List β
  | [] => []
  | a :: l => f a ++ catMap f l

/-- Combine an outcome of the first part of a concatenation with an
outcome of the second part. -/
def seqOut (x y : MOut) : MOut := (x.1 ++ y.1, y.2.1, orElse2 x.2.2 y.2.2)

/-- All backtracking outcomes of matching `re` at the start of `s`, in JS
preference order (alternatives left to right, greedy quantifiers longest
first).  The head of the list is the match JS reports. -/
def mrun : RE → List Char → List MOut
  | .str cs, s =>
    match strRun cs s with
    | some (u, r) => [(u, r, none)]
    | none => []
  | .cls _, [] => []
  | .cls p, c :: t => if p c then [([c], t, none)] else []
  | .rep p n, s =>
    match repRun p n s with
    | some (u, r) => [(u, r, none)]
    | none => []
  | .grp p n, s =>
    match repRun p n s with
    | some (u, r) => [(u, r, some u)]
    | none => []
  | .star p, s => (starRun p s).map (fun x => (x.1, x.2, none))
  | .plus _, [] => []
  | .plus p, c :: t =>
    if p c then (starRun p t).map (fun x => (c :: x.1, x.2, none)) else []
  | .opt cs, s =>
    match strRun cs s with
    | some (u, r) => [(u, r, none), ([], s, none)]
    | none => [([], s, none)]
  | .seq a b, s =>
    catMap (fun x => (mrun b x.2.1).map (seqOut x)) (mrun a s)
  | .alt a b, s => mrun a s ++ mrun b s

/-- `String.prototype.match` without the `g` flag: try each start position
left to right and report the first position where the pattern matches;
the payload is group 1's capture at that match (`match[1]`). -/
def scan (re : RE) : List Char → Option (Option (List Char))
  | [] =>
    match mrun re [] with
    | o :: _ => some o.2.2
    | [] => none
  | c :: t =>
    match mrun re (c :: t) with
    | o :: _ => some o.2.2
    | [] => scan re t

/-- The source's `if (match && match[1])` test: a pattern contributes a
result only when it matched and group 1 captured a non-empty string
(an empty capture is falsy in JS). -/
def capOf (r : Option (Option (List Char))) : Option (List Char) :=
  match r with
  | some (some cap) => if cap = [] then none else some cap
  | _ => none

/-! Character classes appearing in the six patterns. -/

/-- `[^\/]` -/
def noSlash (c : Char) : Bool := !(c = '/')

/-- `.` (any character but a line terminator; the patterns have no `s` flag). -/
def dotChar (c : Char) : Bool :=
  !(c = '\n' || c = '\r' || c = '\u2028' || c = '\u2029')

/-- JS `\s`: WhiteSpace and LineTerminator code points. -/
def jsSpace (c : Char) : Bool :=
  c = ' ' || c = '\t' || c = '\n' || c = '\r' || c = '\x0b' || c = '\x0c' ||
  c = '\u00A0' || c = '\u1680' || ('\u2000' ≤ c && c ≤ '\u200A') ||
  c = '\u2028' || c = '\u2029' || c = '\u202F' || c = '\u205F' ||
  c = '\u3000' || c = '\uFEFF'

/-- The capture class `[^"&?\/\s]`. -/
def capCls (c : Char) : Bool :=
  !(c = '"' || c = '&' || c = '?' || c = '/' || jsSpace c)

/-- `[?&]` -/
def qAmp (c : Char) : Bool := c = '?' || c = '&'

/-- `[a-zA-Z0-9_-]` -/
def idChar (c : Char) : Bool :=
  (c ≥ 'a' && c ≤ 'z') || (c ≥ 'A' && c ≤ 'Z') || (c ≥ '0' && c ≤ '9') ||
  c = '_' || c = '-'

namespace Info

/-! The six patterns of `extractVideoId` in `src/unnamed/part_000`
(the `/info` route), in source order. -/

def ytcStr : List Char := ['y', 'o', 'u', 't', 'u', 'b', 'e', '.', 'c', 'o', 'm', '/']
def ytbStr : List Char := ['y', 'o', 'u', 't', 'u', '.', 'b', 'e', '/']

/-- `[^\/]+\/.+\/` -/
def pathAlt : RE :=
  .seq (.plus noSlash) (.seq (.str ['/']) (.seq (.plus dotChar) (.str ['/'])))

/-- `(?:v|e(?:mbed)?)\/` -/
def veAlt : RE :=
  .seq (.alt (.str ['v']) (.seq (.str ['e']) (.opt ['m', 'b', 'e', 'd']))) (.str ['/'])

/-- `.*[?&]v=` -/
def queryAlt : RE :=
  .seq (.star dotChar) (.seq (.cls qAmp) (.str ['v', '=']))

/-- `/(?:youtube\.com\/(?:[^\/]+\/.+\/|(?:v|e(?:mbed)?)\/|.*[?&]v=)|youtu\.be\/)([^"&?\/\s]{11})/i` -/
def pattern1 : RE :=
  .seq (.alt (.seq (.str ytcStr) (.alt pathAlt (.alt veAlt queryAlt))) (.str ytbStr))
    (.grp capCls 11)

/-- `/youtu\.be\/([^"&?\/\s]{11})/i` -/
def pattern2 : RE := .seq (.str ytbStr) (.grp capCls 11)

/-- `/youtube\.com\/embed\/([^"&?\/\s]{11})/i` -/
def pattern3 : RE :=
  .seq (.str (ytcStr ++ ['e', 'm', 'b', 'e', 'd', '/'])) (.grp capCls 11)

/-- `/youtube\.com\/shorts\/([^"&?\/\s]{11})/i` -/
def pattern4 : RE :=
  .seq (.str (ytcStr ++ ['s', 'h', 'o', 'r', 't', 's', '/'])) (.grp capCls 11)

/-- `/youtube\.com\/v\/([^"&?\/\s]{11})/i` -/
def pattern5 : RE :=
  .seq (.str (ytcStr ++ ['v', '/'])) (.grp capCls 11)

/-- `/^([a-zA-Z0-9_-]{11})$/`: anchored at both ends (no `m` flag), so the
whole input must be exactly eleven identifier characters. -/
def matchP6 (s : List Char) : Option (Option (List Char)) :=
  match repRun idChar 11 s with
  | some (u, rest) => if rest = [] then some (some u) else none
  | none => none

/-- `extractVideoId` of `src/unnamed/part_000` lines 18–38: try the six
patterns in order, returning the first non-empty group-1 capture, else
`null` (here `none`). -/
def extractVideoId (url : String) : Option String :=
  match capOf (scan pattern1 url.toList) with
  | some c => some c.asString
  | none =>
  match capOf (scan pattern2 url.toList) with
  | some c => some c.asString
  | none =>
  match capOf (scan pattern3 url.toList) with
  | some c => some c.asString
  | none =>
  match capOf (scan pattern4 url.toList) with
  | some c => some c.asString
  | none =>
  match capOf (scan pattern5 url.toList) with
  | some c => some c.asString
  | none =>
  match capOf (matchP6 url.toList) with
  | some c => some c.asString
  | none => none

end Info

namespace Download

/-! The `/download` route (`src/src/app/api/download/route.ts` lines 5–25)
defines its own `extractVideoId` with a character-for-character identical
pattern list and loop; it is embedded separately so that the two routes'
functions can be compared. -/

def ytcStr : List Char := ['y', 'o', 'u', 't', 'u', 'b', 'e', '.', 'c', 'o', 'm', '/']
def ytbStr : List Char := ['y', 'o', 'u', 't', 'u', '.', 'b', 'e', '/']

def pathAlt : RE :=
  .seq (.plus noSlash) (.seq (.str ['/']) (.seq (.plus dotChar) (.str ['/'])))

def veAlt : RE :=
  .seq (.alt (.str ['v']) (.seq (.str ['e']) (.opt ['m', 'b', 'e', 'd']))) (.str ['/'])

def queryAlt : RE :=
  .seq (.star dotChar) (.seq (.cls qAmp) (.str ['v', '=']))

def pattern1 : RE :=
  .seq (.alt (.seq (.str ytcStr) (.alt pathAlt (.alt veAlt queryAlt))) (.str ytbStr))
    (.grp capCls 11)

def pattern2 : RE := .seq (.str ytbStr) (.grp capCls 11)

def pattern3 : RE :=
  .seq (.str (ytcStr ++ ['e', 'm', 'b', 'e', 'd', '/'])) (.grp capCls 11)

def pattern4 : RE :=
  .seq (.str (ytcStr ++ ['s', 'h', 'o', 'r', 't', 's', '/'])) (.grp capCls 11)

def pattern5 : RE :=
  .seq (.str (ytcStr ++ ['v', '/'])) (.grp capCls 11)

def matchP6 (s : List Char) : Option (Option (List Char)) :=
  match repRun idChar 11 s with
  | some (u, rest) => if rest = [] then some (some u) else none
  | none => none

/-- `extractVideoId` of `src/src/app/api/download/route.ts` lines 5–25. -/
def extractVideoId (url : String) : Option String :=
  match capOf (scan pattern1 url.toList) with
  | some c => some c.asString
  | none =>
  match capOf (scan pattern2 url.toList) with
  | some c => some c.asString
  | none =>
  match capOf (scan pattern3 url.toList) with
  | some c => some c.asString
  | none =>
  match capOf (scan pattern4 url.toList) with
  | some c => some c.asString
  | none =>
  match capOf (scan pattern5 url.toList) with
  | some c => some c.asString
  | none =>
  match capOf (matchP6 url.toList) with
  | some c => some c.asString
  | none => none

end Download

/-! ## Data model of the `/info` route (`src/unnamed/part_000`) -/

/-- The `VideoFormat` interface (lines 5–15). -/
structure VideoFormat where
  itag : String
  mimeType : String
  qualityLabel : String
  bitrate : Int
  hasVideo : Bool
  hasAudio : Bool
  container : Option String
  codecs : Option String
  contentLength : Option String
deriving DecidableEq, Repr

/-- One element of `rapidApiData.videos.items`.  `audioQuality` is the
field whose presence the normalizer tests (`item.audioQuality !== undefined`). -/
structure RawVideoItem where
  id : String            -- `item.id.toString()` (already stringified)
  mimeType : String
  qualityLabel : String
  bitrate : Int
  audioQuality : Option String
  container : Option String
  codecs : Option String
  contentLength : Option String
deriving DecidableEq, Repr

/-- One element of `rapidApiData.audios.items`.  The provider payload may
carry a `mimeType` field, but the audio branch of the normalizer never
reads it. -/
structure RawAudioItem where
  id : String
  mimeType : Option String
  bitrate : Int
  container : Option String
  codecs : Option String
  contentLength : Option String
deriving DecidableEq, Repr

/-- JS `x || d` for an optional string: `undefined` and `""` are falsy. -/
def jsOrStr (o : Option String) (d : String) : String :=
  match o with
  | some s => if s = "" then d else s
  | none => d

/-- JS truthiness of a nullable string parameter. -/
def truthy (o : Option String) : Bool :=
  match o with
  | some s => !(s = "")
  | none => false

/-- Lines 126–136: a video item pushed onto `formats`. -/
def videoItemToFormat (item : RawVideoItem) : VideoFormat :=
  { itag := item.id
    mimeType := item.mimeType
    qualityLabel := item.qualityLabel
    bitrate := item.bitrate
    hasVideo := true
    hasAudio := item.audioQuality.isSome
    container := item.container
    codecs := item.codecs
    contentLength := item.contentLength }

/-- Lines 143–153: an audio item pushed onto `formats`.  The MIME type is
always synthesized as `'audio/' + (item.container || 'mp3')`. -/
def audioItemToFormat (item : RawAudioItem) : VideoFormat :=
  { itag := item.id
    mimeType := "audio/" ++ jsOrStr item.container "mp3"
    qualityLabel := "Audio Only"
    bitrate := item.bitrate
    hasVideo := false
    hasAudio := true
    container := item.container
    codecs := item.codecs
    contentLength := item.contentLength }

/-! ## The quality comparator (lines 158–172) -/

/-- JS `parseInt` (radix unspecified): skip `StrWhiteSpace`, optional
sign, then `0x`/`0X` hex digits or decimal digits; `none` models `NaN`. -/
def hexDigitVal (c : Char) : Option Nat :=
  let n := c.toNat
  if 48 ≤ n && n ≤ 57 then some (n - 48)
  else if 97 ≤ n && n ≤ 102 then some (n - 87)
  else if 65 ≤ n && n ≤ 70 then some (n - 55)
  else none

def decDigitVal (c : Char) : Option Nat :=
  let n := c.toNat
  if 48 ≤ n && n ≤ 57 then some (n - 48) else none

def digitsRun (dv : Char → Option Nat) (base : Nat) : List Char → Nat → Nat × Bool
  | [], acc => (acc, false)
  | c :: t, acc =>
    match dv c with
    | some v => ((digitsRun dv base t (acc * base + v)).1, true)
    | none => (acc, false)

def parseDigits (dv : Char → Option Nat) (base : Nat) (cs : List Char) : Option Int :=
  match cs with
  | [] => none
  | c :: _ =>
    match dv c with
    | some _ => some ((digitsRun dv base cs 0).1 : Int)
    | none => none

def parseUnsignedJS (cs : List Char) : Option Int :=
  match cs with
  | '0' :: c :: rest =>
    if c = 'x' || c = 'X' then parseDigits hexDigitVal 16 rest
    else parseDigits decDigitVal 10 ('0' :: c :: rest)
  | _ => parseDigits decDigitVal 10 cs

def parseIntJS (s : String) : Option Int :=
  match s.toList.dropWhile jsSpace with
  | '-' :: rest => (parseUnsignedJS rest).map Int.neg
  | '+' :: rest => parseUnsignedJS rest
  | cs => parseUnsignedJS cs

/-- `a.qualityLabel?.split('p')[0]`: the segment before the first `'p'`. -/
def splitP0 (s : String) : String :=
  (s.toList.takeWhile (fun c => !(c = 'p'))).asString

/-- `parseInt(a.qualityLabel?.split('p')[0] || '0')`: `none` models a NaN
resolution (the `|| '0'` default fires only when the segment is empty). -/
def resOf (f : VideoFormat) : Option Int :=
  parseIntJS (if splitP0 f.qualityLabel = "" then "0" else splitP0 f.qualityLabel)

/-- The comparator passed to `formats.sort` (lines 158–172).  When either
resolution is NaN the JS subtraction yields NaN, and ECMAScript's
`SortCompare` treats a NaN comparator value as `+0`, i.e. a tie. -/
def cmpFmt (a b : VideoFormat) : Int :=
  if a.hasVideo && !b.hasVideo then -1
  else if !a.hasVideo && b.hasVideo then 1
  else if a.hasVideo && b.hasVideo then
    match resOf a, resOf b with
    | some x, some y => y - x
    | _, _ => 0
  else b.bitrate - a.bitrate

/-- Stable insertion used to model `Array.prototype.sort`: an element is
placed after every element that must come strictly before it and before
the first element that does not.  ES2019 requires `sort` to be stable, and
every stable sort agrees with this one whenever the comparator is
consistent. -/
def insertFmt (x : VideoFormat) : List VideoFormat → List VideoFormat
  | [] => [x]
  | y :: ys => if cmpFmt y x < 0 then y :: insertFmt x ys else x :: y :: ys

/-- `formats.sort((a, b) => ...)` modelled as a stable sort by `cmpFmt`. -/
def sortFmts : List VideoFormat → List VideoFormat
  | [] => []
  | x :: xs => insertFmt x (sortFmts xs)

/-! ## The `/info` GET handler (lines 91–254) -/

structure RapidThumb where
  url : String
deriving DecidableEq, Repr

structure RapidChannel where
  name : Option String
deriving DecidableEq, Repr

structure RapidVideos where
  items : Option (List RawVideoItem)
deriving DecidableEq, Repr

structure RapidAudios where
  items : Option (List RawAudioItem)
deriving DecidableEq, Repr

/-- The shape of `rapidApiData` the handler reads. -/
structure RapidData where
  title : String
  channel : Option RapidChannel
  lengthSeconds : Option Int
  viewCount : Option Int
  thumbnails : Option (List RapidThumb)
  videos : Option RapidVideos
  audios : Option RapidAudios
deriving DecidableEq, Repr

/-- The fields the handler reads from the oEmbed response. -/
structure OEmbedData where
  title : String
  author_name : String
  thumbnail_url : String
deriving DecidableEq, Repr

inductive ProviderCall where
  | primary (videoId : String)
  | oembedFallback (videoId : String)
deriving DecidableEq, Repr

structure InfoOk where
  videoId : String
  title : String
  author : String
  lengthSeconds : String
  viewCount : String
  thumbnailUrl : String
  formats : List VideoFormat
deriving DecidableEq, Repr

inductive InfoBody where
  | ok (payload : InfoOk)
  | err (error : String)
deriving DecidableEq, Repr

/-- A response together with the trace of outbound provider calls the
handler made while producing it. -/
structure InfoResponse where
  status : Nat
  body : InfoBody
  calls : List ProviderCall
deriving DecidableEq, Repr

/-- Lines 121–155: build the `formats` array (video items first, then
audio items, in provider order). -/
def rawFormats (d : RapidData) : List VideoFormat :=
  (match d.videos with
   | some w =>
     match w.items with
     | some items => items.map videoItemToFormat
     | none => []
   | none => []) ++
  (match d.audios with
   | some w =>
     match w.items with
     | some items => items.map audioItemToFormat
     | none => []
   | none => [])

/-- Lines 197–220: the two synthesized formats of the oEmbed fallback path. -/
def fallbackFormats : List VideoFormat :=
  [ { itag := "18"
      mimeType := "video/mp4"
      qualityLabel := "360p"
      bitrate := 0
      hasVideo := true
      hasAudio := true
      container := some "mp4"
      codecs := some "avc1.42001E, mp4a.40.2"
      contentLength := some "0" },
    { itag := "140"
      mimeType := "audio/mp4"
      qualityLabel := "Audio Only"
      bitrate := 128000
      hasVideo := false
      hasAudio := true
      container := some "mp4"
      codecs := some "mp4a.40.2"
      contentLength := some "0" } ]

/-- The `/info` GET handler, parameterized by the two provider clients
(`fetchRapidApiInfo` and `fetchOEmbedInfo`); a provider's `Except.error`
models any of its failure modes (non-2xx status, network error, parse
error).  The handler's own logic (lines 91–254) is straight-line. -/
def infoGET (url : Option String)
    (fetchRapid : String → Except String RapidData)
    (fetchOEmbed : String → Except String OEmbedData) : InfoResponse :=
  match url with
  | none => ⟨400, .err "URL parameter is required", []⟩
  | some u =>
    if u = "" then ⟨400, .err "URL parameter is required", []⟩
    else
      match Info.extractVideoId u with
      | none => ⟨400, .err "Could not extract video ID from URL", []⟩
      | some videoId =>
        match fetchRapid videoId with
        | .ok d =>
          ⟨200,
           .ok { videoId := videoId
                 title := d.title
                 author := jsOrStr (d.channel.bind (fun c => c.name)) "Unknown"
                 lengthSeconds :=
                   match d.lengthSeconds with
                   | some n => toString n
                   | none => "0"
                 viewCount :=
                   match d.viewCount with
                   | some n => toString n
                   | none => "0"
                 thumbnailUrl :=
                   match d.thumbnails with
                   | some (t :: _) => jsOrStr (some t.url) ""
                   | _ => ""
                 formats := sortFmts (rawFormats d) },
           [.primary videoId]⟩
        | .error _ =>
          match fetchOEmbed videoId with
          | .ok od =>
            ⟨200,
             .ok { videoId := videoId
                   title := od.title
                   author := od.author_name
                   lengthSeconds := "0"
                   viewCount := "0"
                   thumbnailUrl := od.thumbnail_url
                   formats := fallbackFormats },
             [.primary videoId, .oembedFallback videoId]⟩
          | .error _ =>
            ⟨500, .err "All methods failed to fetch video information",
             [.primary videoId, .oembedFallback videoId]⟩

/-! ## The `/download` GET handler (`src/src/app/api/download/route.ts`
lines 27–96) -/

inductive DlResult where
  | badRequest (error : String)
  | redirect (location : String)
deriving DecidableEq, Repr

/-- The `/download` GET handler.  `url`, `itag`, `format`, `videoId` are
the query parameters (`searchParams.get` returns `null` when absent).
Nothing in the handler's `try` block can throw, so the 500 branch is
unreachable and not modelled. -/
def downloadGET (url itag format videoId : Option String) : DlResult :=
  if !truthy url && !truthy videoId then
    .badRequest "URL or videoId parameter is required"
  else
    match
      (if truthy videoId then Except.ok (videoId.getD "")
       else if truthy url then
         match Download.extractVideoId (url.getD "") with
         | some extractedId => Except.ok extractedId
         | none => Except.error ()
       else Except.ok "") with
    | .error () => .badRequest "Invalid YouTube URL. Could not extract video ID."
    | .ok finalVideoId =>
      if format = some "mp3" then
        .redirect ("https://www.y2mate.com/youtube-mp3/" ++ finalVideoId)
      else
        if truthy itag then
          .redirect ("https://www.y2mate.com/youtube/" ++ finalVideoId ++ "/mp4/" ++ itag.getD "")
        else
          .redirect ("https://www.y2mate.com/youtube/" ++ finalVideoId)


/-! ## Proof-side auxiliary definitions -/

/-- The outcomes a greedy star contributes when it stops inside a known
prefix `w` of the input `w ++ v` (consumed, rest), longest first; the
outcomes that reach into `v` are `(starRun p v).map (fun x => (w ++ x.1, x.2))`. -/
def tailSplits : List Char → List Char → List (List Char × List Char)
  | [], _ => []
  | c :: w', v => (tailSplits w' v).map (fun x => (c :: x.1, x.2)) ++ [([], (c :: w') ++ v)]

/-- No capturing group occurs in the expression. -/
def groupFree : RE → Bool
  | .str _ => true
  | .cls _ => true
  | .rep _ _ => true
  | .grp _ _ => false
  | .star _ => true
  | .plus _ => true
  | .opt _ => true
  | .seq a b => groupFree a && groupFree b
  | .alt a b => groupFree a && groupFree b


/-- A format's video quality parses to an actual number (the comparator's
NaN case does not arise for it). -/
def videoParses (f : VideoFormat) : Prop :=
  f.hasVideo = true → (resOf f).isSome = true

/-- Resolution used by the specification's description of the order. -/
def resVal (f : VideoFormat) : Int := (resOf f).getD 0

/-- The specification's ordering relation: video before audio, higher
resolution first among video, higher bitrate first among audio. -/
def claimOrd (a b : VideoFormat) : Prop :=
  (a.hasVideo = true ∧ b.hasVideo = false) ∨
  (a.hasVideo = true ∧ b.hasVideo = true ∧ resVal b ≤ resVal a) ∨
  (a.hasVideo = false ∧ b.hasVideo = false ∧ b.bitrate ≤ a.bitrate)

/-- Concrete character prefixes used to analyse the six URL shapes. -/
def watchTail : List Char := ['w', 'a', 't', 'c', 'h', '?', 'v', '=']
def embedTail : List Char := ['e', 'm', 'b', 'e', 'd', '/']
def shortsTail : List Char := ['s', 'h', 'o', 'r', 't', 's', '/']
def vSlashTail : List Char := ['v', '/']
def httpsWWW : List Char := ['h', 't', 't', 'p', 's', ':', '/', '/', 'w', 'w', 'w', '.']
def httpsOnly : List Char := ['h', 't', 't', 'p', 's', ':', '/', '/']


def ProviderCall.isFallback : ProviderCall → Bool
  | .oembedFallback _ => true
  | .primary _ => false

/-- A video format whose qualityLabel has no parseable leading number:
`parseInt("junk")` is NaN in JS. -/
def fmtJunkLabel : VideoFormat :=
  { itag := "1", mimeType := "video/mp4", qualityLabel := "junk", bitrate := 0,
    hasVideo := true, hasAudio := true, container := none, codecs := none,
    contentLength := none }

def fmt720p : VideoFormat :=
  { itag := "2", mimeType := "video/mp4", qualityLabel := "720p", bitrate := 0,
    hasVideo := true, hasAudio := true, container := none, codecs := none,
    contentLength := none }

/-- An audio item that carries its own MIME type: the normalizer ignores it. -/
def audioItemWithMime : RawAudioItem :=
  { id := "251", mimeType := some "audio/opus", bitrate := 160000,
    container := some "m4a", codecs := some "opus", contentLength := some "123" }

def vi480 : RawVideoItem :=
  { id := "135", mimeType := "video/mp4", qualityLabel := "480p", bitrate := 500000,
    audioQuality := none, container := some "mp4", codecs := none, contentLength := none }

def vi720 : RawVideoItem :=
  { id := "136", mimeType := "video/mp4", qualityLabel := "720p", bitrate := 900000,
    audioQuality := some "AUDIO_QUALITY_MEDIUM", container := some "mp4", codecs := none,
    contentLength := none }

def ai128 : RawAudioItem :=
  { id := "140", mimeType := none, bitrate := 128000, container := some "m4a",
    codecs := none, contentLength := none }

def ai256 : RawAudioItem :=
  { id := "141", mimeType := none, bitrate := 256000, container := some "m4a",
    codecs := none, contentLength := none }

def sampleOEmbed : OEmbedData :=
  { title := "Sample", author_name := "Author", thumbnail_url := "https://i.ytimg.com/t.jpg" }

/-! ## Character-level facts -/

theorem char_le_iff {a b : Char} : (a ≤ b) ↔ a.toNat ≤ b.toNat := Iff.rfl

theorem char_eq_iff {a b : Char} : (a = b) ↔ a.toNat = b.toNat := by
  constructor
  · rintro rfl; rfl
  · intro h; exact Char.ext (UInt32.ext h)

theorem capCls_of_idChar {c : Char} (h : idChar c = true) : capCls c = true := by
  simp only [idChar, capCls, jsSpace, ge_iff_le, Bool.or_eq_true, Bool.and_eq_true,
    decide_eq_true_eq, char_le_iff, char_eq_iff, Bool.not_eq_true',
    Bool.or_eq_false_iff, Bool.and_eq_false_iff, decide_eq_false_iff_not,
    Char.reduceToNat] at *
  omega

theorem noSlash_of_idChar {c : Char} (h : idChar c = true) : noSlash c = true := by
  simp only [idChar, noSlash, ge_iff_le, Bool.or_eq_true, Bool.and_eq_true,
    decide_eq_true_eq, char_le_iff, char_eq_iff, Bool.not_eq_true',
    decide_eq_false_iff_not, Char.reduceToNat] at *
  omega

theorem dotChar_of_idChar {c : Char} (h : idChar c = true) : dotChar c = true := by
  simp only [idChar, dotChar, ge_iff_le, Bool.or_eq_true, Bool.and_eq_true,
    decide_eq_true_eq, char_le_iff, char_eq_iff, Bool.not_eq_true',
    Bool.or_eq_false_iff, decide_eq_false_iff_not, Char.reduceToNat] at *
  omega

theorem qAmp_of_idChar {c : Char} (h : idChar c = true) : qAmp c = false := by
  simp only [idChar, qAmp, ge_iff_le, Bool.or_eq_true, Bool.and_eq_true,
    decide_eq_true_eq, char_le_iff, char_eq_iff, Bool.or_eq_false_iff,
    decide_eq_false_iff_not, Char.reduceToNat] at *
  omega

theorem ne_of_idChar {c x : Char} (h : idChar c = true) (hx : idChar x = false) : c ≠ x := by
  rintro rfl
  rw [hx] at h
  exact Bool.false_ne_true h

theorem eqCI_false_of_ne {x c : Char} (hx : upperAscii x = x) (hne : c ≠ x) :
    eqCI x c = false := by
  simp [eqCI, hx, hne]

theorem eqCI_dot_of_idChar {c : Char} (h : idChar c = true) : eqCI '.' c = false :=
  eqCI_false_of_ne (by decide) (ne_of_idChar h (by decide))

theorem eqCI_slash_of_idChar {c : Char} (h : idChar c = true) : eqCI '/' c = false :=
  eqCI_false_of_ne (by decide) (ne_of_idChar h (by decide))

/-! ## Engine lemmas -/

theorem catMap_nil_of {f : α → List β} : ∀ {l : List α}, (∀ a ∈ l, f a = []) → catMap f l = []
  | [], _ => rfl
  | a :: t, h => by
    rw [catMap, h a (List.mem_cons_self a t),
      catMap_nil_of fun x hx => h x (List.mem_cons_of_mem a hx)]
    rfl

theorem catMap_append (f : α → List β) : ∀ (l₁ l₂ : List α),
    catMap f (l₁ ++ l₂) = catMap f l₁ ++ catMap f l₂
  | [], _ => rfl
  | a :: t, l₂ => by
    rw [List.cons_append, catMap, catMap, catMap_append f t l₂, List.append_assoc]

theorem catMap_map (f : β → List γ) (g : α → β) : ∀ (l : List α),
    catMap f (l.map g) = catMap (fun a => f (g a)) l
  | [] => rfl
  | a :: t => by rw [List.map_cons, catMap, catMap, catMap_map f g t]

theorem mem_catMap {f : α → List β} {b : β} : ∀ {l : List α},
    b ∈ catMap f l ↔ ∃ a, a ∈ l ∧ b ∈ f a
  | [] => by simp [catMap]
  | a :: t => by
    rw [catMap, List.mem_append, mem_catMap]
    constructor
    · rintro (hb | ⟨x, hx, hb⟩)
      · exact ⟨a, List.mem_cons_self a t, hb⟩
      · exact ⟨x, List.mem_cons_of_mem a hx, hb⟩
    · rintro ⟨x, hx, hb⟩
      rcases List.mem_cons.mp hx with rfl | hx
      · exact Or.inl hb
      · exact Or.inr ⟨x, hx, hb⟩

theorem starRun_append {p : Char → Bool} : ∀ {s : List Char} {x : List Char × List Char},
    x ∈ starRun p s → x.1 ++ x.2 = s
  | [], x, h => by
    simp only [starRun, List.mem_singleton] at h
    rw [h]
    rfl
  | c :: t, x, h => by
    rw [starRun] at h
    by_cases hc : p c
    · rw [if_pos hc] at h
      rcases List.mem_append.mp h with hm | hm
      · rcases List.mem_map.mp hm with ⟨y, hy, hxy⟩
        have hyt := starRun_append hy
        subst hxy
        rw [List.cons_append, hyt]
      · rw [List.mem_singleton] at hm
        rw [hm]
        rfl
    · rw [if_neg hc] at h
      rw [List.mem_singleton] at h
      rw [h]
      rfl

theorem repRun_exact {p : Char → Bool} : ∀ {v : List Char} (r : List Char),
    (∀ c ∈ v, p c = true) → repRun p v.length (v ++ r) = some (v, r)
  | [], _, _ => rfl
  | c :: t, r, h => by
    have hc : p c = true := h c (List.mem_cons_self c t)
    rw [List.length_cons, List.cons_append, repRun, if_pos hc,
      repRun_exact r fun x hx => h x (List.mem_cons_of_mem c hx)]
    rfl

theorem repRun_sound {p : Char → Bool} : ∀ {n : Nat} {s u r : List Char},
    repRun p n s = some (u, r) → u.length = n ∧ (∀ c ∈ u, p c = true) ∧ s = u ++ r
  | 0, s, u, r, h => by
    rw [repRun] at h
    injection h with h
    injection h with h1 h2
    subst h1; subst h2
    exact ⟨rfl, by simp, rfl⟩
  | n + 1, [], _, _, h => by rw [repRun] at h; cases h
  | n + 1, c :: s, u, r, h => by
    rw [repRun] at h
    by_cases hc : p c
    · rw [if_pos hc] at h
      cases hrec : repRun p n s with
      | none => rw [hrec] at h; cases h
      | some x =>
        obtain ⟨u', r'⟩ := x
        rw [hrec] at h
        injection h with h
        injection h with h1 h2
        subst h1; subst h2
        obtain ⟨hl, hp, hs⟩ := repRun_sound hrec
        refine ⟨by rw [List.length_cons, hl], ?_, by rw [hs, List.cons_append]⟩
        intro x hx
        rcases List.mem_cons.mp hx with rfl | hx
        · exact hc
        · exact hp x hx
    · rw [if_neg hc] at h; cases h

theorem strRun_none_of_bad {q : Char → Bool} :
    ∀ (i : Nat) (cs s : List Char) (hi : i < cs.length),
      (∀ c, q c = true → eqCI (cs.get ⟨i, hi⟩) c = false) →
      (∀ c ∈ s, q c = true) → strRun cs s = none
  | 0, [], _, hi, _, _ => by cases hi
  | 0, _ :: _, [], _, _, _ => rfl
  | 0, c0 :: cs', d :: s', _, hbad, hs => by
    have : eqCI c0 d = false := hbad d (hs d (List.mem_cons_self d s'))
    simp [strRun, this]
  | i + 1, [], _, hi, _, _ => by cases hi
  | i + 1, _ :: _, [], _, _, _ => rfl
  | i + 1, c0 :: cs', d :: s', hi, hbad, hs => by
    rw [strRun]
    by_cases he : eqCI c0 d
    · rw [if_pos he,
        strRun_none_of_bad i cs' s' (Nat.lt_of_succ_lt_succ hi) (fun c hc => hbad c hc)
          (fun c hc => hs c (List.mem_cons_of_mem d hc))]
      rfl
    · rw [if_neg he]

theorem strRun_none_of_headfail {q : Char} (qs : List Char) :
    ∀ (s : List Char), (∀ c ∈ s, eqCI q c = false) → strRun (q :: qs) s = none
  | [], _ => rfl
  | d :: s', h => by simp [strRun, h d (List.mem_cons_self d s')]

theorem mrun_str_nil {cs : List Char} {s : List Char} (h : strRun cs s = none) :
    mrun (.str cs) s = [] := by rw [mrun, h]

theorem mrun_seq_nil {a b : RE} {s : List Char} (h : ∀ x ∈ mrun a s, mrun b x.2.1 = []) :
    mrun (.seq a b) s = [] := by
  rw [mrun]
  exact catMap_nil_of fun x hx => by rw [h x hx]; rfl

/-! ## Failure lemmas for the pattern alternatives -/

theorem mem_of_starRun_rest {p : Char → Bool} {s : List Char} {y : List Char × List Char}
    (hy : y ∈ starRun p s) {d : Char} (hd : d ∈ y.2) : d ∈ s := by
  rw [← starRun_append hy]
  exact List.mem_append_right _ hd

theorem mrun_plus_then_lit_nil {p : Char → Bool} {q : Char} {qs : List Char} (X : RE) :
    ∀ {s : List Char}, (∀ c ∈ s, eqCI q c = false) →
      mrun (.seq (.plus p) (.seq (.str (q :: qs)) X)) s = []
  | [], _ => by
    apply mrun_seq_nil
    intro x hx
    simp [mrun] at hx
  | c :: t, h => by
    apply mrun_seq_nil
    intro x hx
    rw [mrun] at hx
    by_cases hc : p c
    · rw [if_pos hc] at hx
      rcases List.mem_map.mp hx with ⟨y, hy, hxy⟩
      subst hxy
      show mrun (.seq (.str (q :: qs)) X) y.2 = []
      have hstr : mrun (.str (q :: qs)) y.2 = [] :=
        mrun_str_nil (strRun_none_of_headfail qs y.2 fun d hd =>
          h d (List.mem_cons_of_mem c (mem_of_starRun_rest hy hd)))
      apply mrun_seq_nil
      intro z hz
      rw [hstr] at hz
      exact absurd hz (List.not_mem_nil z)
    · rw [if_neg hc] at hx
      exact absurd hx (List.not_mem_nil x)

theorem mrun_plus_lit_nil {p : Char → Bool} {q : Char} {qs : List Char} :
    ∀ {s : List Char}, (∀ c ∈ s, eqCI q c = false) →
      mrun (.seq (.plus p) (.str (q :: qs))) s = []
  | [], _ => by
    apply mrun_seq_nil
    intro x hx
    simp [mrun] at hx
  | c :: t, h => by
    apply mrun_seq_nil
    intro x hx
    rw [mrun] at hx
    by_cases hc : p c
    · rw [if_pos hc] at hx
      rcases List.mem_map.mp hx with ⟨y, hy, hxy⟩
      subst hxy
      show mrun (.str (q :: qs)) y.2 = []
      exact mrun_str_nil (strRun_none_of_headfail qs y.2 fun d hd =>
        h d (List.mem_cons_of_mem c (mem_of_starRun_rest hy hd)))
    · rw [if_neg hc] at hx
      exact absurd hx (List.not_mem_nil x)

theorem mrun_queryAlt_nil {s : List Char} (h : ∀ c ∈ s, qAmp c = false) :
    mrun Info.queryAlt s = [] := by
  rw [Info.queryAlt]
  apply mrun_seq_nil
  intro x hx
  rw [mrun] at hx
  rcases List.mem_map.mp hx with ⟨y, hy, hxy⟩
  subst hxy
  show mrun (.seq (.cls qAmp) (.str ['v', '='])) y.2 = []
  have hcls : mrun (.cls qAmp) y.2 = [] := by
    cases hr : y.2 with
    | nil => rfl
    | cons d r' =>
      have hd : d ∈ y.2 := by rw [hr]; exact List.mem_cons_self d r'
      simp [mrun, h d (mem_of_starRun_rest hy hd)]
  apply mrun_seq_nil
  intro z hz
  rw [hcls] at hz
  exact absurd hz (List.not_mem_nil z)

theorem mrun_pathAlt_nil {s : List Char} (h : ∀ c ∈ s, eqCI '/' c = false) :
    mrun Info.pathAlt s = [] := by
  rw [Info.pathAlt]
  exact mrun_plus_then_lit_nil _ h

/-- In `w ++ '/' :: v` with no slash in `w` or `v`, the suffix that starts
with a slash is exactly `'/' :: v`. -/
theorem slashSplit : ∀ {u : List Char} {w v r : List Char},
    u ++ '/' :: r = w ++ '/' :: v →
    (∀ c ∈ w, eqCI '/' c = false) → (∀ c ∈ v, eqCI '/' c = false) → r = v := by
  intro u
  induction u with
  | nil =>
    intro w v r he hw hv
    cases w with
    | nil => simpa using he
    | cons a w' =>
      rw [List.nil_append, List.cons_append] at he
      have h1 : '/' = a := (List.cons.injEq _ _ _ _ ▸ he).1
      have := hw a (List.mem_cons_self a w')
      rw [← h1] at this
      exact absurd this (by decide)
  | cons a u' ih =>
    intro w v r he hw hv
    cases w with
    | nil =>
      rw [List.nil_append] at he
      rw [List.cons_append] at he
      have h1 : a = '/' := (List.cons.injEq _ _ _ _ ▸ he).1
      have h2 : u' ++ '/' :: r = v := (List.cons.injEq _ _ _ _ ▸ he).2
      have : '/' ∈ v := by
        rw [← h2]
        exact List.mem_append_right _ (List.mem_cons_self _ _)
      have := hv '/' this
      exact absurd this (by decide)
    | cons b w' =>
      rw [List.cons_append, List.cons_append] at he
      have h2 : u' ++ '/' :: r = w' ++ '/' :: v := (List.cons.injEq _ _ _ _ ▸ he).2
      exact ih h2 (fun c hc => hw c (List.mem_cons_of_mem b hc)) hv

theorem mrun_pathAlt_endSlash {w v : List Char} (hw : ∀ c ∈ w, eqCI '/' c = false)
    (hv : ∀ c ∈ v, eqCI '/' c = false) :
    mrun Info.pathAlt (w ++ '/' :: v) = [] := by
  rw [Info.pathAlt]
  apply mrun_seq_nil
  intro x hx
  cases w with
  | nil =>
    rw [List.nil_append, mrun] at hx
    rw [if_neg (by simp [noSlash])] at hx
    exact absurd hx (List.not_mem_nil x)
  | cons a w' =>
    rw [List.cons_append, mrun] at hx
    have ha : noSlash a = true := by
      have h1 := hw a (List.mem_cons_self a w')
      simp only [eqCI, Bool.or_eq_false_iff, decide_eq_false_iff_not] at h1
      simp [noSlash, h1.1]
    rw [if_pos ha] at hx
    rcases List.mem_map.mp hx with ⟨y, hy, hxy⟩
    subst hxy
    show mrun (.seq (.str ['/']) (.seq (.plus dotChar) (.str ['/']))) y.2 = []
    have hsuf : y.1 ++ y.2 = w' ++ '/' :: v := starRun_append hy
    cases hr : y.2 with
    | nil =>
      apply mrun_seq_nil
      intro z hz
      simp [mrun, strRun] at hz
    | cons d r' =>
      by_cases hd : eqCI '/' d = true
      · have hdeq : d = '/' := by
          simpa [eqCI, (by decide : upperAscii '/' = '/')] using hd
        subst hdeq
        have hrv : r' = v := by
          apply slashSplit (u := y.1) (w := w') (v := v) (r := r')
          · rw [← hr, hsuf]
          · exact fun c hc => hw c (List.mem_cons_of_mem a hc)
          · exact hv
        rw [hrv, mrun]
        have hone : mrun (.str ['/']) ('/' :: v) = [(['/'], v, none)] := by
          simp [mrun, strRun, eqCI]
        rw [hone, catMap, mrun_plus_lit_nil hv]
        rfl
      · have hnone : strRun ['/'] (d :: r') = none := by
          simp [strRun, hd]
        apply mrun_seq_nil
        intro z hz
        rw [mrun, hnone] at hz
        exact absurd hz (List.not_mem_nil z)

/-! ## Splitting a greedy star around a known prefix -/

theorem starRun_split {p : Char → Bool} : ∀ {w : List Char}, (∀ c ∈ w, p c = true) →
    ∀ (v : List Char),
      starRun p (w ++ v) = (starRun p v).map (fun x => (w ++ x.1, x.2)) ++ tailSplits w v
  | [], _, v => by simp [tailSplits]
  | c :: w', hw, v => by
    rw [List.cons_append, starRun, if_pos (hw c (List.mem_cons_self c w')),
      starRun_split (fun x hx => hw x (List.mem_cons_of_mem c hx)) v, tailSplits]
    simp [List.map_append, List.map_map, Function.comp, List.append_assoc]

/-- When the continuation `b` fails on every suffix of `v`, a
`star`-then-`b` sequence over `w ++ v` reduces to the outcomes where the
star stops inside `w`. -/
theorem mrun_seq_star_split {p : Char → Bool} {b : RE} {w v : List Char}
    (hw : ∀ c ∈ w, p c = true)
    (hkill : ∀ u r : List Char, u ++ r = v → mrun b r = []) :
    mrun (.seq (.star p) b) (w ++ v) =
      catMap (fun x => (mrun b x.2).map (seqOut (x.1, x.2, none))) (tailSplits w v) := by
  rw [mrun, mrun, starRun_split hw v, List.map_append, catMap_append,
    List.map_map, catMap_map, catMap_map]
  have hA : catMap
      (fun x : List Char × List Char =>
        (mrun b x.2).map (seqOut (w ++ x.1, x.2, none))) (starRun p v) = [] := by
    apply catMap_nil_of
    intro x hx
    rw [hkill x.1 x.2 (starRun_append hx)]
    rfl
  calc catMap (fun x => (fun y : MOut => (mrun b y.2.1).map (seqOut y))
          (((fun z : List Char × List Char => (z.1, z.2, none)) ∘
            (fun z : List Char × List Char => (w ++ z.1, z.2))) x)) (starRun p v) ++
        catMap (fun x => (fun y : MOut => (mrun b y.2.1).map (seqOut y))
          ((fun z : List Char × List Char => (z.1, z.2, none)) x)) (tailSplits w v)
      = catMap (fun x : List Char × List Char =>
          (mrun b x.2).map (seqOut (w ++ x.1, x.2, none))) (starRun p v) ++
        catMap (fun x : List Char × List Char =>
          (mrun b x.2).map (seqOut (x.1, x.2, none))) (tailSplits w v) := rfl
    _ = catMap (fun x : List Char × List Char =>
          (mrun b x.2).map (seqOut (x.1, x.2, none))) (tailSplits w v) := by
        rw [hA, List.nil_append]

/-! ## Scanning lemmas -/

theorem scan_eq_head {re : RE} {s : List Char} {o : MOut} {l : List MOut}
    (h : mrun re s = o :: l) : scan re s = some o.2.2 := by
  cases s with
  | nil => rw [scan, h]
  | cons c t => rw [scan, h]

theorem scan_append {re : RE} : ∀ (P : List Char) {v : List Char},
    (∀ i (_ : i < P.length), mrun re (P.drop i ++ v) = []) →
    scan re (P ++ v) = scan re v
  | [], _, _ => rfl
  | c :: P', v, h => by
    have h0 : mrun re (c :: (P' ++ v)) = [] := h 0 (Nat.succ_pos _)
    rw [List.cons_append, scan, h0]
    exact scan_append P' fun i hi => h (i + 1) (Nat.succ_lt_succ hi)

theorem scan_none_of (re : RE)
    (H : ∀ t : List Char, (∀ c ∈ t, idChar c = true) → mrun re t = []) :
    ∀ (s : List Char), (∀ c ∈ s, idChar c = true) → scan re s = none
  | [], hs => by rw [scan, H [] hs]
  | c :: t, hs => by
    rw [scan, H (c :: t) hs]
    exact scan_none_of re H t fun x hx => hs x (List.mem_cons_of_mem c hx)

/-! ## Per-pattern head-failure and all-identifier-character failure -/

theorem strRun_headfail {q : Char} {qs : List Char} {d : Char} {s : List Char}
    (h : eqCI q d = false) : strRun (q :: qs) (d :: s) = none := by
  simp [strRun, h]

theorem strRun_self : ∀ (cs rest : List Char), strRun cs (cs ++ rest) = some (cs, rest)
  | [], _ => rfl
  | c :: cs', rest => by
    simp [strRun, eqCI, strRun_self cs' rest]

theorem mrun_p1_headfail {c : Char} {t : List Char} (h : eqCI 'y' c = false) :
    mrun Info.pattern1 (c :: t) = [] := by
  simp [Info.pattern1, Info.ytcStr, Info.ytbStr, mrun, strRun, h, catMap]

theorem mrun_p2_headfail {c : Char} {t : List Char} (h : eqCI 'y' c = false) :
    mrun Info.pattern2 (c :: t) = [] := by
  simp [Info.pattern2, Info.ytbStr, mrun, strRun, h, catMap]

theorem mrun_p3_headfail {c : Char} {t : List Char} (h : eqCI 'y' c = false) :
    mrun Info.pattern3 (c :: t) = [] := by
  simp [Info.pattern3, Info.ytcStr, mrun, strRun, h, catMap]

theorem mrun_p4_headfail {c : Char} {t : List Char} (h : eqCI 'y' c = false) :
    mrun Info.pattern4 (c :: t) = [] := by
  simp [Info.pattern4, Info.ytcStr, mrun, strRun, h, catMap]

theorem mrun_p5_headfail {c : Char} {t : List Char} (h : eqCI 'y' c = false) :
    mrun Info.pattern5 (c :: t) = [] := by
  simp [Info.pattern5, Info.ytcStr, mrun, strRun, h, catMap]

theorem mrun_p1_idchar {s : List Char} (hs : ∀ c ∈ s, idChar c = true) :
    mrun Info.pattern1 s = [] := by
  have h1 : strRun Info.ytcStr s = none :=
    strRun_none_of_bad 7 Info.ytcStr s (by decide)
      (fun c hc => eqCI_dot_of_idChar hc) hs
  have h2 : strRun Info.ytbStr s = none :=
    strRun_none_of_bad 5 Info.ytbStr s (by decide)
      (fun c hc => eqCI_dot_of_idChar hc) hs
  simp [Info.pattern1, mrun, h1, h2, catMap]

theorem mrun_p2_idchar {s : List Char} (hs : ∀ c ∈ s, idChar c = true) :
    mrun Info.pattern2 s = [] := by
  have h2 : strRun Info.ytbStr s = none :=
    strRun_none_of_bad 5 Info.ytbStr s (by decide)
      (fun c hc => eqCI_dot_of_idChar hc) hs
  simp [Info.pattern2, mrun, h2, catMap]

theorem mrun_p3_idchar {s : List Char} (hs : ∀ c ∈ s, idChar c = true) :
    mrun Info.pattern3 s = [] := by
  have h1 : strRun (Info.ytcStr ++ ['e', 'm', 'b', 'e', 'd', '/']) s = none :=
    strRun_none_of_bad 7 _ s (by decide)
      (fun c hc => eqCI_dot_of_idChar hc) hs
  simp [Info.pattern3, mrun, h1, catMap]

theorem mrun_p4_idchar {s : List Char} (hs : ∀ c ∈ s, idChar c = true) :
    mrun Info.pattern4 s = [] := by
  have h1 : strRun (Info.ytcStr ++ ['s', 'h', 'o', 'r', 't', 's', '/']) s = none :=
    strRun_none_of_bad 7 _ s (by decide)
      (fun c hc => eqCI_dot_of_idChar hc) hs
  simp [Info.pattern4, mrun, h1, catMap]

theorem mrun_p5_idchar {s : List Char} (hs : ∀ c ∈ s, idChar c = true) :
    mrun Info.pattern5 s = [] := by
  have h1 : strRun (Info.ytcStr ++ ['v', '/']) s = none :=
    strRun_none_of_bad 7 _ s (by decide)
      (fun c hc => eqCI_dot_of_idChar hc) hs
  simp [Info.pattern5, mrun, h1, catMap]

/-! ## The `(?:v|e(?:mbed)?)\/` alternative -/

theorem mrun_veAlt_headfail {c : Char} {t : List Char}
    (hv : eqCI 'v' c = false) (he : eqCI 'e' c = false) :
    mrun Info.veAlt (c :: t) = [] := by
  simp [Info.veAlt, mrun, strRun, hv, he, catMap]

theorem mrun_veAlt_v {v : List Char} :
    mrun Info.veAlt ('v' :: '/' :: v) = [(['v', '/'], v, none)] := by
  simp +decide [Info.veAlt, mrun, strRun, catMap, seqOut, orElse2, eqCI]

theorem mrun_veAlt_embed {v : List Char} :
    mrun Info.veAlt ('e' :: 'm' :: 'b' :: 'e' :: 'd' :: '/' :: v) =
      [(['e', 'm', 'b', 'e', 'd', '/'], v, none)] := by
  simp +decide [Info.veAlt, mrun, strRun, catMap, seqOut, orElse2, eqCI]

/-! ## The `.*[?&]v=` alternative on the watch shape -/

theorem mrun_queryAlt_watch {v : List Char} (hv : ∀ c ∈ v, idChar c = true) :
    mrun Info.queryAlt (watchTail ++ v) = [(watchTail, v, none)] := by
  rw [Info.queryAlt,
    mrun_seq_star_split (by decide) ?hkill]
  case hkill =>
    intro u r hur
    have hcls : mrun (.cls qAmp) r = [] := by
      cases r with
      | nil => rfl
      | cons d r' =>
        have hd : d ∈ v := by
          rw [← hur]
          exact List.mem_append_right _ (List.mem_cons_self _ _)
        simp [mrun, qAmp_of_idChar (hv d hd)]
    apply mrun_seq_nil
    intro z hz
    rw [hcls] at hz
    exact absurd hz (List.not_mem_nil z)
  simp +decide [tailSplits, watchTail, catMap, mrun, strRun, seqOut, orElse2, eqCI, qAmp]

/-! ## Pattern 1 at its match position, per URL shape -/

theorem mrun_grp_exact {v : List Char} (hlen : v.length = 11)
    (hv : ∀ c ∈ v, idChar c = true) :
    mrun (.grp capCls 11) v = [(v, [], some v)] := by
  have h := repRun_exact (p := capCls) (v := v) [] (fun c hc => capCls_of_idChar (hv c hc))
  rw [hlen, List.append_nil] at h
  rw [mrun, h]

/-! ## Step equations and shape-by-shape evaluation of the patterns -/

theorem mrun_seq_eq (a b : RE) (s : List Char) :
    mrun (.seq a b) s = catMap (fun x => (mrun b x.2.1).map (seqOut x)) (mrun a s) := rfl

theorem mrun_alt_eq (a b : RE) (s : List Char) :
    mrun (.alt a b) s = mrun a s ++ mrun b s := rfl

theorem mrun_str_eq (cs s : List Char) :
    mrun (.str cs) s =
      (match strRun cs s with
       | some (u, r) => [(u, r, none)]
       | none => []) := rfl

theorem mrun_str_some {cs s u r : List Char} (h : strRun cs s = some (u, r)) :
    mrun (.str cs) s = [(u, r, none)] := by
  rw [mrun_str_eq, h]

theorem catMap_singleton (f : α → List β) (a : α) : catMap f [a] = f a := by
  rw [catMap, catMap]
  exact List.append_nil _

theorem mrun_p1_watchPos {v : List Char} (hlen : v.length = 11)
    (hv : ∀ c ∈ v, idChar c = true) :
    mrun Info.pattern1 ((Info.ytcStr ++ watchTail) ++ v) =
      [((Info.ytcStr ++ watchTail) ++ v, [], some v)] := by
  have hgrp := mrun_grp_exact hlen hv
  have ha1 : mrun Info.pathAlt (watchTail ++ v) = [] := by
    apply mrun_pathAlt_nil
    intro c hc
    rcases List.mem_append.mp hc with h1 | h1
    · exact (by decide : ∀ c ∈ watchTail, eqCI '/' c = false) c h1
    · exact eqCI_slash_of_idChar (hv c h1)
  have ha2 : mrun Info.veAlt (watchTail ++ v) = [] := by
    rw [show watchTail ++ v = 'w' :: (['a', 't', 'c', 'h', '?', 'v', '='] ++ v) from rfl]
    exact mrun_veAlt_headfail (by decide) (by decide)
  have ha3 := mrun_queryAlt_watch hv
  have hstr1 := strRun_self Info.ytcStr (watchTail ++ v)
  have hstr2 : strRun Info.ytbStr (Info.ytcStr ++ (watchTail ++ v)) = none := by
    simp +decide [Info.ytbStr, Info.ytcStr, watchTail, strRun, eqCI]
  rw [List.append_assoc, Info.pattern1, mrun_seq_eq, mrun_alt_eq, mrun_seq_eq,
    mrun_str_some hstr1, mrun_str_nil hstr2, List.append_nil, catMap_singleton]
  show catMap (fun x => List.map (seqOut x) (mrun (RE.grp capCls 11) x.2.1))
      (List.map (seqOut (Info.ytcStr, watchTail ++ v, none))
        (mrun (Info.pathAlt.alt (Info.veAlt.alt Info.queryAlt)) (watchTail ++ v))) =
      [(Info.ytcStr ++ (watchTail ++ v), [], some v)]
  rw [mrun_alt_eq, mrun_alt_eq, ha1, ha2, ha3, List.nil_append, List.nil_append,
    List.map_cons, List.map_nil, catMap_singleton]
  show List.map (seqOut (Info.ytcStr ++ watchTail, v, none)) (mrun (RE.grp capCls 11) v) =
      [(Info.ytcStr ++ (watchTail ++ v), [], some v)]
  rw [hgrp, List.map_cons, List.map_nil]
  show [(Info.ytcStr ++ watchTail ++ v, [], some v)] = [(Info.ytcStr ++ (watchTail ++ v), [], some v)]
  rw [List.append_assoc]

theorem catMap_nilList (f : α → List β) : catMap f [] = [] := rfl

theorem mrun_p1_ytbPos {v : List Char} (hlen : v.length = 11)
    (hv : ∀ c ∈ v, idChar c = true) :
    mrun Info.pattern1 (Info.ytbStr ++ v) = [(Info.ytbStr ++ v, [], some v)] := by
  have hstr1 : strRun Info.ytcStr (Info.ytbStr ++ v) = none := by
    simp +decide [Info.ytcStr, Info.ytbStr, strRun, eqCI]
  have hstr2 := strRun_self Info.ytbStr v
  rw [Info.pattern1, mrun_seq_eq, mrun_alt_eq, mrun_seq_eq, mrun_str_nil hstr1,
    catMap_nilList, mrun_str_some hstr2, List.nil_append, catMap_singleton]
  show List.map (seqOut (Info.ytbStr, v, none)) (mrun (RE.grp capCls 11) v) =
      [(Info.ytbStr ++ v, [], some v)]
  rw [mrun_grp_exact hlen hv, List.map_cons, List.map_nil]
  rfl

theorem mrun_p1_embedPos {v : List Char} (hlen : v.length = 11)
    (hv : ∀ c ∈ v, idChar c = true) :
    mrun Info.pattern1 ((Info.ytcStr ++ embedTail) ++ v) =
      [((Info.ytcStr ++ embedTail) ++ v, [], some v)] := by
  have ha1 : mrun Info.pathAlt (embedTail ++ v) = [] := by
    rw [show embedTail ++ v = ['e', 'm', 'b', 'e', 'd'] ++ '/' :: v from rfl]
    exact mrun_pathAlt_endSlash (by decide) (fun c hc => eqCI_slash_of_idChar (hv c hc))
  have ha2 : mrun Info.veAlt (embedTail ++ v) =
      [(['e', 'm', 'b', 'e', 'd', '/'], v, none)] := mrun_veAlt_embed
  have ha3 : mrun Info.queryAlt (embedTail ++ v) = [] := by
    apply mrun_queryAlt_nil
    intro c hc
    rcases List.mem_append.mp hc with h1 | h1
    · exact (by decide : ∀ c ∈ embedTail, qAmp c = false) c h1
    · exact qAmp_of_idChar (hv c h1)
  have hstr1 := strRun_self Info.ytcStr (embedTail ++ v)
  have hstr2 : strRun Info.ytbStr (Info.ytcStr ++ (embedTail ++ v)) = none := by
    simp +decide [Info.ytbStr, Info.ytcStr, embedTail, strRun, eqCI]
  rw [List.append_assoc, Info.pattern1, mrun_seq_eq, mrun_alt_eq, mrun_seq_eq,
    mrun_str_some hstr1, mrun_str_nil hstr2, List.append_nil, catMap_singleton]
  show catMap (fun x => List.map (seqOut x) (mrun (RE.grp capCls 11) x.2.1))
      (List.map (seqOut (Info.ytcStr, embedTail ++ v, none))
        (mrun (Info.pathAlt.alt (Info.veAlt.alt Info.queryAlt)) (embedTail ++ v))) =
      [(Info.ytcStr ++ (embedTail ++ v), [], some v)]
  rw [mrun_alt_eq, mrun_alt_eq, ha1, ha2, ha3, List.nil_append, List.append_nil,
    List.map_cons, List.map_nil, catMap_singleton]
  show List.map (seqOut (Info.ytcStr ++ ['e', 'm', 'b', 'e', 'd', '/'], v, none))
      (mrun (RE.grp capCls 11) v) = [(Info.ytcStr ++ (embedTail ++ v), [], some v)]
  rw [mrun_grp_exact hlen hv, List.map_cons, List.map_nil]
  show [(Info.ytcStr ++ ['e', 'm', 'b', 'e', 'd', '/'] ++ v, [], some v)] =
      [(Info.ytcStr ++ (embedTail ++ v), [], some v)]
  rw [List.append_assoc]
  rfl

theorem mrun_p1_vslashPos {v : List Char} (hlen : v.length = 11)
    (hv : ∀ c ∈ v, idChar c = true) :
    mrun Info.pattern1 ((Info.ytcStr ++ vSlashTail) ++ v) =
      [((Info.ytcStr ++ vSlashTail) ++ v, [], some v)] := by
  have ha1 : mrun Info.pathAlt (vSlashTail ++ v) = [] := by
    rw [show vSlashTail ++ v = ['v'] ++ '/' :: v from rfl]
    exact mrun_pathAlt_endSlash (by decide) (fun c hc => eqCI_slash_of_idChar (hv c hc))
  have ha2 : mrun Info.veAlt (vSlashTail ++ v) = [(['v', '/'], v, none)] := mrun_veAlt_v
  have ha3 : mrun Info.queryAlt (vSlashTail ++ v) = [] := by
    apply mrun_queryAlt_nil
    intro c hc
    rcases List.mem_append.mp hc with h1 | h1
    · exact (by decide : ∀ c ∈ vSlashTail, qAmp c = false) c h1
    · exact qAmp_of_idChar (hv c h1)
  have hstr1 := strRun_self Info.ytcStr (vSlashTail ++ v)
  have hstr2 : strRun Info.ytbStr (Info.ytcStr ++ (vSlashTail ++ v)) = none := by
    simp +decide [Info.ytbStr, Info.ytcStr, vSlashTail, strRun, eqCI]
  rw [List.append_assoc, Info.pattern1, mrun_seq_eq, mrun_alt_eq, mrun_seq_eq,
    mrun_str_some hstr1, mrun_str_nil hstr2, List.append_nil, catMap_singleton]
  show catMap (fun x => List.map (seqOut x) (mrun (RE.grp capCls 11) x.2.1))
      (List.map (seqOut (Info.ytcStr, vSlashTail ++ v, none))
        (mrun (Info.pathAlt.alt (Info.veAlt.alt Info.queryAlt)) (vSlashTail ++ v))) =
      [(Info.ytcStr ++ (vSlashTail ++ v), [], some v)]
  rw [mrun_alt_eq, mrun_alt_eq, ha1, ha2, ha3, List.nil_append, List.append_nil,
    List.map_cons, List.map_nil, catMap_singleton]
  show List.map (seqOut (Info.ytcStr ++ ['v', '/'], v, none))
      (mrun (RE.grp capCls 11) v) = [(Info.ytcStr ++ (vSlashTail ++ v), [], some v)]
  rw [mrun_grp_exact hlen hv, List.map_cons, List.map_nil]
  show [(Info.ytcStr ++ ['v', '/'] ++ v, [], some v)] =
      [(Info.ytcStr ++ (vSlashTail ++ v), [], some v)]
  rw [List.append_assoc]
  rfl

theorem mrun_p1_shortsPosNil {v : List Char} (hv : ∀ c ∈ v, idChar c = true) :
    mrun Info.pattern1 ((Info.ytcStr ++ shortsTail) ++ v) = [] := by
  have ha1 : mrun Info.pathAlt (shortsTail ++ v) = [] := by
    rw [show shortsTail ++ v = ['s', 'h', 'o', 'r', 't', 's'] ++ '/' :: v from rfl]
    exact mrun_pathAlt_endSlash (by decide) (fun c hc => eqCI_slash_of_idChar (hv c hc))
  have ha2 : mrun Info.veAlt (shortsTail ++ v) = [] := by
    rw [show shortsTail ++ v = 's' :: (['h', 'o', 'r', 't', 's', '/'] ++ v) from rfl]
    exact mrun_veAlt_headfail (by decide) (by decide)
  have ha3 : mrun Info.queryAlt (shortsTail ++ v) = [] := by
    apply mrun_queryAlt_nil
    intro c hc
    rcases List.mem_append.mp hc with h1 | h1
    · exact (by decide : ∀ c ∈ shortsTail, qAmp c = false) c h1
    · exact qAmp_of_idChar (hv c h1)
  have hstr1 := strRun_self Info.ytcStr (shortsTail ++ v)
  have hstr2 : strRun Info.ytbStr (Info.ytcStr ++ (shortsTail ++ v)) = none := by
    simp +decide [Info.ytbStr, Info.ytcStr, shortsTail, strRun, eqCI]
  rw [List.append_assoc, Info.pattern1, mrun_seq_eq, mrun_alt_eq, mrun_seq_eq,
    mrun_str_some hstr1, mrun_str_nil hstr2, List.append_nil, catMap_singleton]
  show catMap (fun x => List.map (seqOut x) (mrun (RE.grp capCls 11) x.2.1))
      (List.map (seqOut (Info.ytcStr, shortsTail ++ v, none))
        (mrun (Info.pathAlt.alt (Info.veAlt.alt Info.queryAlt)) (shortsTail ++ v))) = []
  rw [mrun_alt_eq, mrun_alt_eq, ha1, ha2, ha3]
  rfl

theorem mrun_p4_shortsPos {v : List Char} (hlen : v.length = 11)
    (hv : ∀ c ∈ v, idChar c = true) :
    mrun Info.pattern4 ((Info.ytcStr ++ shortsTail) ++ v) =
      [((Info.ytcStr ++ shortsTail) ++ v, [], some v)] := by
  have hstr := strRun_self (Info.ytcStr ++ shortsTail) v
  rw [Info.pattern4]
  rw [show (Info.ytcStr ++ ['s', 'h', 'o', 'r', 't', 's', '/']) = Info.ytcStr ++ shortsTail
    from rfl]
  rw [mrun_seq_eq, mrun_str_some hstr, catMap_singleton]
  show List.map (seqOut (Info.ytcStr ++ shortsTail, v, none)) (mrun (RE.grp capCls 11) v) =
      [((Info.ytcStr ++ shortsTail) ++ v, [], some v)]
  rw [mrun_grp_exact hlen hv, List.map_cons, List.map_nil]
  rfl

theorem mrun_p2_nil {s : List Char} (h : strRun Info.ytbStr s = none) :
    mrun Info.pattern2 s = [] := by
  rw [Info.pattern2, mrun_seq_eq, mrun_str_nil h, catMap_nilList]

theorem mrun_p3_nil {s : List Char} (h : strRun (Info.ytcStr ++ ['e', 'm', 'b', 'e', 'd', '/']) s = none) :
    mrun Info.pattern3 s = [] := by
  rw [Info.pattern3, mrun_seq_eq, mrun_str_nil h, catMap_nilList]

theorem mrun_p4_nil {s : List Char} (h : strRun (Info.ytcStr ++ ['s', 'h', 'o', 'r', 't', 's', '/']) s = none) :
    mrun Info.pattern4 s = [] := by
  rw [Info.pattern4, mrun_seq_eq, mrun_str_nil h, catMap_nilList]

theorem mrun_p5_nil {s : List Char} (h : strRun (Info.ytcStr ++ ['v', '/']) s = none) :
    mrun Info.pattern5 s = [] := by
  rw [Info.pattern5, mrun_seq_eq, mrun_str_nil h, catMap_nilList]

theorem toList_append (a b : String) : (a ++ b).toList = a.toList ++ b.toList := by
  simp [String.toList, String.data_append]

theorem toList_asString (l : List Char) : (l.asString).toList = l := rfl

theorem ne_nil_of_len11 {v : List Char} (hlen : v.length = 11) : v ≠ [] := by
  intro h
  rw [h] at hlen
  exact absurd hlen (by decide)

theorem scan_p1_watch {v : List Char} (hlen : v.length = 11)
    (hv : ∀ c ∈ v, idChar c = true) :
    scan Info.pattern1 (httpsWWW ++ ((Info.ytcStr ++ watchTail) ++ v)) = some (some v) := by
  have hfail : ∀ i, i < httpsWWW.length →
      mrun Info.pattern1 (httpsWWW.drop i ++ ((Info.ytcStr ++ watchTail) ++ v)) = [] := by
    intro i hi
    have hi2 : i < 12 := hi
    interval_cases i <;> exact mrun_p1_headfail (by decide)
  rw [scan_append httpsWWW hfail]
  exact scan_eq_head (mrun_p1_watchPos hlen hv)

theorem scan_p1_ytb {v : List Char} (hlen : v.length = 11)
    (hv : ∀ c ∈ v, idChar c = true) :
    scan Info.pattern1 (httpsOnly ++ (Info.ytbStr ++ v)) = some (some v) := by
  have hfail : ∀ i, i < httpsOnly.length →
      mrun Info.pattern1 (httpsOnly.drop i ++ (Info.ytbStr ++ v)) = [] := by
    intro i hi
    have hi2 : i < 8 := hi
    interval_cases i <;> exact mrun_p1_headfail (by decide)
  rw [scan_append httpsOnly hfail]
  exact scan_eq_head (mrun_p1_ytbPos hlen hv)

theorem scan_p1_embed {v : List Char} (hlen : v.length = 11)
    (hv : ∀ c ∈ v, idChar c = true) :
    scan Info.pattern1 (httpsWWW ++ ((Info.ytcStr ++ embedTail) ++ v)) = some (some v) := by
  have hfail : ∀ i, i < httpsWWW.length →
      mrun Info.pattern1 (httpsWWW.drop i ++ ((Info.ytcStr ++ embedTail) ++ v)) = [] := by
    intro i hi
    have hi2 : i < 12 := hi
    interval_cases i <;> exact mrun_p1_headfail (by decide)
  rw [scan_append httpsWWW hfail]
  exact scan_eq_head (mrun_p1_embedPos hlen hv)

theorem scan_p1_vslash {v : List Char} (hlen : v.length = 11)
    (hv : ∀ c ∈ v, idChar c = true) :
    scan Info.pattern1 (httpsWWW ++ ((Info.ytcStr ++ vSlashTail) ++ v)) = some (some v) := by
  have hfail : ∀ i, i < httpsWWW.length →
      mrun Info.pattern1 (httpsWWW.drop i ++ ((Info.ytcStr ++ vSlashTail) ++ v)) = [] := by
    intro i hi
    have hi2 : i < 12 := hi
    interval_cases i <;> exact mrun_p1_headfail (by decide)
  rw [scan_append httpsWWW hfail]
  exact scan_eq_head (mrun_p1_vslashPos hlen hv)

theorem scan_p1_shorts {v : List Char} (hv : ∀ c ∈ v, idChar c = true) :
    scan Info.pattern1 (httpsWWW ++ ((Info.ytcStr ++ shortsTail) ++ v)) = none := by
  have hfail1 : ∀ i, i < httpsWWW.length →
      mrun Info.pattern1 (httpsWWW.drop i ++ ((Info.ytcStr ++ shortsTail) ++ v)) = [] := by
    intro i hi
    have hi2 : i < 12 := hi
    interval_cases i <;> exact mrun_p1_headfail (by decide)
  rw [scan_append httpsWWW hfail1]
  have hfail2 : ∀ i, i < (Info.ytcStr ++ shortsTail).length →
      mrun Info.pattern1 ((Info.ytcStr ++ shortsTail).drop i ++ v) = [] := by
    intro i hi
    have hi2 : i < 19 := hi
    interval_cases i
    · exact mrun_p1_shortsPosNil hv
    all_goals exact mrun_p1_headfail (by decide)
  rw [scan_append _ hfail2]
  exact scan_none_of _ (fun t ht => mrun_p1_idchar ht) v hv

theorem scan_p2_shorts {v : List Char} (hv : ∀ c ∈ v, idChar c = true) :
    scan Info.pattern2 (httpsWWW ++ ((Info.ytcStr ++ shortsTail) ++ v)) = none := by
  have hfail1 : ∀ i, i < httpsWWW.length →
      mrun Info.pattern2 (httpsWWW.drop i ++ ((Info.ytcStr ++ shortsTail) ++ v)) = [] := by
    intro i hi
    have hi2 : i < 12 := hi
    interval_cases i <;> exact mrun_p2_headfail (by decide)
  rw [scan_append httpsWWW hfail1]
  have hfail2 : ∀ i, i < (Info.ytcStr ++ shortsTail).length →
      mrun Info.pattern2 ((Info.ytcStr ++ shortsTail).drop i ++ v) = [] := by
    intro i hi
    have hi2 : i < 19 := hi
    interval_cases i
    · exact mrun_p2_nil (by simp +decide [Info.ytbStr, Info.ytcStr, shortsTail, strRun, eqCI])
    all_goals exact mrun_p2_headfail (by decide)
  rw [scan_append _ hfail2]
  exact scan_none_of _ (fun t ht => mrun_p2_idchar ht) v hv

theorem scan_p3_shorts {v : List Char} (hv : ∀ c ∈ v, idChar c = true) :
    scan Info.pattern3 (httpsWWW ++ ((Info.ytcStr ++ shortsTail) ++ v)) = none := by
  have hfail1 : ∀ i, i < httpsWWW.length →
      mrun Info.pattern3 (httpsWWW.drop i ++ ((Info.ytcStr ++ shortsTail) ++ v)) = [] := by
    intro i hi
    have hi2 : i < 12 := hi
    interval_cases i <;> exact mrun_p3_headfail (by decide)
  rw [scan_append httpsWWW hfail1]
  have hfail2 : ∀ i, i < (Info.ytcStr ++ shortsTail).length →
      mrun Info.pattern3 ((Info.ytcStr ++ shortsTail).drop i ++ v) = [] := by
    intro i hi
    have hi2 : i < 19 := hi
    interval_cases i
    · exact mrun_p3_nil (by simp +decide [Info.ytcStr, shortsTail, strRun, eqCI])
    all_goals exact mrun_p3_headfail (by decide)
  rw [scan_append _ hfail2]
  exact scan_none_of _ (fun t ht => mrun_p3_idchar ht) v hv

theorem scan_p4_shorts {v : List Char} (hlen : v.length = 11)
    (hv : ∀ c ∈ v, idChar c = true) :
    scan Info.pattern4 (httpsWWW ++ ((Info.ytcStr ++ shortsTail) ++ v)) = some (some v) := by
  have hfail : ∀ i, i < httpsWWW.length →
      mrun Info.pattern4 (httpsWWW.drop i ++ ((Info.ytcStr ++ shortsTail) ++ v)) = [] := by
    intro i hi
    have hi2 : i < 12 := hi
    interval_cases i <;> exact mrun_p4_headfail (by decide)
  rw [scan_append httpsWWW hfail]
  exact scan_eq_head (mrun_p4_shortsPos hlen hv)

theorem extract_watch {v : List Char} (hlen : v.length = 11)
    (hv : ∀ c ∈ v, idChar c = true) :
    Info.extractVideoId ("https://www.youtube.com/watch?v=" ++ v.asString) =
      some v.asString := by
  have hto : ("https://www.youtube.com/watch?v=" ++ v.asString).toList =
      httpsWWW ++ ((Info.ytcStr ++ watchTail) ++ v) := by
    rw [toList_append, toList_asString,
      show ("https://www.youtube.com/watch?v=").toList =
        httpsWWW ++ (Info.ytcStr ++ watchTail) by decide, List.append_assoc]
  unfold Info.extractVideoId
  rw [hto, scan_p1_watch hlen hv]
  simp [capOf, ne_nil_of_len11 hlen]

theorem extract_ytb {v : List Char} (hlen : v.length = 11)
    (hv : ∀ c ∈ v, idChar c = true) :
    Info.extractVideoId ("https://youtu.be/" ++ v.asString) = some v.asString := by
  have hto : ("https://youtu.be/" ++ v.asString).toList =
      httpsOnly ++ (Info.ytbStr ++ v) := by
    rw [toList_append, toList_asString,
      show ("https://youtu.be/").toList = httpsOnly ++ Info.ytbStr by decide,
      List.append_assoc]
  unfold Info.extractVideoId
  rw [hto, scan_p1_ytb hlen hv]
  simp [capOf, ne_nil_of_len11 hlen]

theorem extract_embed {v : List Char} (hlen : v.length = 11)
    (hv : ∀ c ∈ v, idChar c = true) :
    Info.extractVideoId ("https://www.youtube.com/embed/" ++ v.asString) =
      some v.asString := by
  have hto : ("https://www.youtube.com/embed/" ++ v.asString).toList =
      httpsWWW ++ ((Info.ytcStr ++ embedTail) ++ v) := by
    rw [toList_append, toList_asString,
      show ("https://www.youtube.com/embed/").toList =
        httpsWWW ++ (Info.ytcStr ++ embedTail) by decide, List.append_assoc]
  unfold Info.extractVideoId
  rw [hto, scan_p1_embed hlen hv]
  simp [capOf, ne_nil_of_len11 hlen]

theorem extract_vslash {v : List Char} (hlen : v.length = 11)
    (hv : ∀ c ∈ v, idChar c = true) :
    Info.extractVideoId ("https://www.youtube.com/v/" ++ v.asString) =
      some v.asString := by
  have hto : ("https://www.youtube.com/v/" ++ v.asString).toList =
      httpsWWW ++ ((Info.ytcStr ++ vSlashTail) ++ v) := by
    rw [toList_append, toList_asString,
      show ("https://www.youtube.com/v/").toList =
        httpsWWW ++ (Info.ytcStr ++ vSlashTail) by decide, List.append_assoc]
  unfold Info.extractVideoId
  rw [hto, scan_p1_vslash hlen hv]
  simp [capOf, ne_nil_of_len11 hlen]

theorem extract_shorts {v : List Char} (hlen : v.length = 11)
    (hv : ∀ c ∈ v, idChar c = true) :
    Info.extractVideoId ("https://www.youtube.com/shorts/" ++ v.asString) =
      some v.asString := by
  have hto : ("https://www.youtube.com/shorts/" ++ v.asString).toList =
      httpsWWW ++ ((Info.ytcStr ++ shortsTail) ++ v) := by
    rw [toList_append, toList_asString,
      show ("https://www.youtube.com/shorts/").toList =
        httpsWWW ++ (Info.ytcStr ++ shortsTail) by decide, List.append_assoc]
  unfold Info.extractVideoId
  rw [hto, scan_p1_shorts hv, scan_p2_shorts hv, scan_p3_shorts hv,
    scan_p4_shorts hlen hv]
  simp [capOf, ne_nil_of_len11 hlen]

theorem extract_bare {v : List Char} (hlen : v.length = 11)
    (hv : ∀ c ∈ v, idChar c = true) :
    Info.extractVideoId v.asString = some v.asString := by
  have h1 : scan Info.pattern1 v = none :=
    scan_none_of _ (fun t ht => mrun_p1_idchar ht) v hv
  have h2 : scan Info.pattern2 v = none :=
    scan_none_of _ (fun t ht => mrun_p2_idchar ht) v hv
  have h3 : scan Info.pattern3 v = none :=
    scan_none_of _ (fun t ht => mrun_p3_idchar ht) v hv
  have h4 : scan Info.pattern4 v = none :=
    scan_none_of _ (fun t ht => mrun_p4_idchar ht) v hv
  have h5 : scan Info.pattern5 v = none :=
    scan_none_of _ (fun t ht => mrun_p5_idchar ht) v hv
  have h6 : Info.matchP6 v = some (some v) := by
    have h := repRun_exact (p := idChar) (v := v) [] hv
    rw [hlen, List.append_nil] at h
    unfold Info.matchP6
    rw [h]
    rfl
  unfold Info.extractVideoId
  rw [toList_asString, h1, h2, h3, h4, h5, h6]
  simp [capOf, ne_nil_of_len11 hlen]

/-! ## Capture soundness -/

theorem mrun_grp_eq (p : Char → Bool) (n : Nat) (s : List Char) :
    mrun (.grp p n) s =
      (match repRun p n s with
       | some (u, r) => [(u, r, some u)]
       | none => []) := rfl

theorem mrun_groupFree_cap : ∀ {re : RE}, groupFree re = true →
    ∀ {s : List Char} {o : MOut}, o ∈ mrun re s → o.2.2 = none
  | .str cs, _, s, o, ho => by
    rw [mrun_str_eq] at ho
    cases hs : strRun cs s with
    | none => rw [hs] at ho; cases ho
    | some ur =>
      obtain ⟨u, r⟩ := ur
      rw [hs] at ho
      rw [List.mem_singleton] at ho
      rw [ho]
  | .cls p, _, s, o, ho => by
    cases s with
    | nil => cases ho
    | cons c t =>
      rw [show mrun (.cls p) (c :: t) = (if p c then [([c], t, none)] else []) from rfl] at ho
      by_cases hc : p c
      · rw [if_pos hc, List.mem_singleton] at ho
        rw [ho]
      · rw [if_neg hc] at ho; cases ho
  | .rep p n, _, s, o, ho => by
    rw [show mrun (.rep p n) s =
      (match repRun p n s with
       | some (u, r) => [(u, r, none)]
       | none => []) from rfl] at ho
    cases hs : repRun p n s with
    | none => rw [hs] at ho; cases ho
    | some ur =>
      obtain ⟨u, r⟩ := ur
      rw [hs, List.mem_singleton] at ho
      rw [ho]
  | .grp p n, hgf, s, o, ho => by cases hgf
  | .star p, _, s, o, ho => by
    rw [show mrun (.star p) s = (starRun p s).map (fun x => (x.1, x.2, none)) from rfl] at ho
    rcases List.mem_map.mp ho with ⟨y, _, hoy⟩
    rw [← hoy]
  | .plus p, _, s, o, ho => by
    cases s with
    | nil => cases ho
    | cons c t =>
      rw [show mrun (.plus p) (c :: t) =
        (if p c then (starRun p t).map (fun x => (c :: x.1, x.2, none)) else []) from rfl] at ho
      by_cases hc : p c
      · rw [if_pos hc] at ho
        rcases List.mem_map.mp ho with ⟨y, _, hoy⟩
        rw [← hoy]
      · rw [if_neg hc] at ho; cases ho
  | .opt cs, _, s, o, ho => by
    rw [show mrun (.opt cs) s =
      (match strRun cs s with
       | some (u, r) => [(u, r, none), ([], s, none)]
       | none => [([], s, none)]) from rfl] at ho
    cases hs : strRun cs s with
    | none =>
      rw [hs, List.mem_singleton] at ho
      rw [ho]
    | some ur =>
      obtain ⟨u, r⟩ := ur
      rw [hs] at ho
      rcases List.mem_cons.mp ho with rfl | ho
      · rfl
      · rw [List.mem_singleton] at ho
        rw [ho]
  | .seq a b, hgf, s, o, ho => by
    rw [show groupFree (.seq a b) = (groupFree a && groupFree b) from rfl,
      Bool.and_eq_true] at hgf
    rw [mrun_seq_eq] at ho
    rcases mem_catMap.mp ho with ⟨x, hx, hox⟩
    rcases List.mem_map.mp hox with ⟨y, hy, hoy⟩
    have hxn := mrun_groupFree_cap hgf.1 hx
    have hyn := mrun_groupFree_cap hgf.2 hy
    rw [← hoy]
    show orElse2 x.2.2 y.2.2 = none
    rw [hxn, hyn]
    rfl
  | .alt a b, hgf, s, o, ho => by
    rw [show groupFree (.alt a b) = (groupFree a && groupFree b) from rfl,
      Bool.and_eq_true] at hgf
    rw [mrun_alt_eq] at ho
    rcases List.mem_append.mp ho with hm | hm
    · exact mrun_groupFree_cap hgf.1 hm
    · exact mrun_groupFree_cap hgf.2 hm

theorem cap_from_mem {X : RE} {p : Char → Bool} {n : Nat} {s : List Char} {o : MOut}
    {cap : List Char} (hgf : groupFree X = true)
    (ho : o ∈ mrun (.seq X (.grp p n)) s) (hc : o.2.2 = some cap) :
    cap.length = n ∧ (∀ c ∈ cap, p c = true) := by
  rw [mrun_seq_eq] at ho
  rcases mem_catMap.mp ho with ⟨x, hx, hox⟩
  rcases List.mem_map.mp hox with ⟨y, hy, hoy⟩
  have hxn := mrun_groupFree_cap hgf hx
  subst hoy
  rw [show (seqOut x y).2.2 = orElse2 x.2.2 y.2.2 from rfl, hxn,
    show orElse2 none y.2.2 = y.2.2 from rfl] at hc
  rw [mrun_grp_eq] at hy
  cases hrep : repRun p n x.2.1 with
  | none => rw [hrep] at hy; cases hy
  | some ur =>
    obtain ⟨u, r⟩ := ur
    rw [hrep, List.mem_singleton] at hy
    rw [hy] at hc
    injection hc with hc
    subst hc
    obtain ⟨hl, hp, _⟩ := repRun_sound hrep
    exact ⟨hl, hp⟩

theorem scan_cap_sound {X : RE} {p : Char → Bool} {n : Nat} (hgf : groupFree X = true) :
    ∀ (s : List Char) {cap : List Char},
      scan (.seq X (.grp p n)) s = some (some cap) →
      cap.length = n ∧ (∀ c ∈ cap, p c = true)
  | [], cap, h => by
    rw [scan] at h
    cases hm : mrun (.seq X (.grp p n)) [] with
    | nil => rw [hm] at h; cases h
    | cons o l =>
      rw [hm] at h
      injection h with h
      exact cap_from_mem hgf (by rw [hm]; exact List.mem_cons_self o l) h
  | c :: t, cap, h => by
    rw [scan] at h
    cases hm : mrun (.seq X (.grp p n)) (c :: t) with
    | nil =>
      rw [hm] at h
      exact scan_cap_sound hgf t h
    | cons o l =>
      rw [hm] at h
      injection h with h
      exact cap_from_mem hgf (by rw [hm]; exact List.mem_cons_self o l) h

theorem capOf_eq_some {r : Option (Option (List Char))} {cap : List Char}
    (h : capOf r = some cap) : r = some (some cap) ∧ cap ≠ [] := by
  match r with
  | none => cases h
  | some none => cases h
  | some (some c) =>
    have h2 : (if c = [] then none else some c : Option (List Char)) = some cap := h
    by_cases hc : c = []
    · rw [if_pos hc] at h2; cases h2
    · rw [if_neg hc] at h2
      injection h2 with h2
      subst h2
      exact ⟨rfl, hc⟩

theorem matchP6_sound {s cap : List Char} (h : Info.matchP6 s = some (some cap)) :
    cap.length = 11 ∧ (∀ c ∈ cap, idChar c = true) := by
  unfold Info.matchP6 at h
  cases hrep : repRun idChar 11 s with
  | none => rw [hrep] at h; cases h
  | some ur =>
    obtain ⟨u, rest⟩ := ur
    rw [hrep] at h
    have h2 : (if rest = [] then some (some u) else none :
        Option (Option (List Char))) = some (some cap) := h
    by_cases hr : rest = []
    · rw [if_pos hr] at h2
      injection h2 with h2
      injection h2 with h2
      subst h2
      obtain ⟨hl, hp, _⟩ := repRun_sound hrep
      exact ⟨hl, hp⟩
    · rw [if_neg hr] at h2; cases h2

theorem extract_sound {s : String} {out : String}
    (h : Info.extractVideoId s = some out) :
    out.toList.length = 11 ∧ (∀ c ∈ out.toList, capCls c = true) := by
  unfold Info.extractVideoId at h
  cases h1 : capOf (scan Info.pattern1 s.toList) with
  | some c1 =>
    rw [h1] at h
    injection h with h
    subst h
    rw [toList_asString]
    exact scan_cap_sound (by decide) s.toList (capOf_eq_some h1).1
  | none =>
  rw [h1] at h
  cases h2 : capOf (scan Info.pattern2 s.toList) with
  | some c2 =>
    rw [h2] at h
    injection h with h
    subst h
    rw [toList_asString]
    exact scan_cap_sound (by decide) s.toList (capOf_eq_some h2).1
  | none =>
  rw [h2] at h
  cases h3 : capOf (scan Info.pattern3 s.toList) with
  | some c3 =>
    rw [h3] at h
    injection h with h
    subst h
    rw [toList_asString]
    exact scan_cap_sound (by decide) s.toList (capOf_eq_some h3).1
  | none =>
  rw [h3] at h
  cases h4 : capOf (scan Info.pattern4 s.toList) with
  | some c4 =>
    rw [h4] at h
    injection h with h
    subst h
    rw [toList_asString]
    exact scan_cap_sound (by decide) s.toList (capOf_eq_some h4).1
  | none =>
  rw [h4] at h
  cases h5 : capOf (scan Info.pattern5 s.toList) with
  | some c5 =>
    rw [h5] at h
    injection h with h
    subst h
    rw [toList_asString]
    exact scan_cap_sound (by decide) s.toList (capOf_eq_some h5).1
  | none =>
  rw [h5] at h
  cases h6 : capOf (Info.matchP6 s.toList) with
  | some c6 =>
    rw [h6] at h
    injection h with h
    subst h
    rw [toList_asString]
    obtain ⟨hl, hp⟩ := matchP6_sound (capOf_eq_some h6).1
    exact ⟨hl, fun c hc => capCls_of_idChar (hp c hc)⟩
  | none =>
    rw [h6] at h
    cases h

/-! ## Properties of the comparator sort -/

theorem insertFmt_split (x : VideoFormat) :
    ∀ (l : List VideoFormat), ∃ pre post, l = pre ++ post ∧
      insertFmt x l = pre ++ x :: post ∧ (∀ y ∈ pre, cmpFmt y x < 0)
  | [] => ⟨[], [], rfl, rfl, by simp⟩
  | y :: ys => by
    by_cases hc : cmpFmt y x < 0
    · obtain ⟨pre, post, h1, h2, h3⟩ := insertFmt_split x ys
      refine ⟨y :: pre, post, by rw [List.cons_append, ← h1], ?_, ?_⟩
      · rw [insertFmt, if_pos hc, h2, List.cons_append]
      · intro z hz
        rcases List.mem_cons.mp hz with rfl | hz
        · exact hc
        · exact h3 z hz
    · exact ⟨[], y :: ys, rfl, by rw [insertFmt, if_neg hc]; rfl, by simp⟩

theorem mem_insertFmt {z x : VideoFormat} {l : List VideoFormat} :
    z ∈ insertFmt x l ↔ z = x ∨ z ∈ l := by
  obtain ⟨pre, post, h1, h2, _⟩ := insertFmt_split x l
  rw [h2, h1]
  simp [List.mem_append, List.mem_cons]
  tauto

theorem mem_sortFmts {z : VideoFormat} : ∀ {l : List VideoFormat},
    z ∈ sortFmts l ↔ z ∈ l
  | [] => Iff.rfl
  | x :: xs => by
    rw [sortFmts, mem_insertFmt, mem_sortFmts, List.mem_cons]

theorem sortFmts_perm : ∀ (l : List VideoFormat), List.Perm (sortFmts l) l
  | [] => List.Perm.refl _
  | x :: xs => by
    rw [sortFmts]
    obtain ⟨pre, post, h1, h2, _⟩ := insertFmt_split x (sortFmts xs)
    rw [h2]
    calc pre ++ x :: post ≈ x :: (pre ++ post) := List.perm_middle
      _ ≈ x :: xs := by rw [← h1]; exact (sortFmts_perm xs).cons x

theorem cmpFmt_neg (a b : VideoFormat) : cmpFmt a b = -cmpFmt b a := by
  cases ha : a.hasVideo <;> cases hb : b.hasVideo <;> simp [cmpFmt, ha, hb]
  cases resOf a <;> cases resOf b <;> simp

theorem cmpFmt_trans_le {a b c : VideoFormat}
    (hA : videoParses a) (hB : videoParses b) (hC : videoParses c)
    (h1 : cmpFmt a b ≤ 0) (h2 : cmpFmt b c ≤ 0) : cmpFmt a c ≤ 0 := by
  cases ha : a.hasVideo <;> cases hb : b.hasVideo <;> cases hc : c.hasVideo <;>
    simp [cmpFmt, ha, hb, hc] at h1 h2 ⊢ <;> try omega
  obtain ⟨x, hx⟩ := Option.isSome_iff_exists.mp (hA ha)
  obtain ⟨y, hy⟩ := Option.isSome_iff_exists.mp (hB hb)
  obtain ⟨z, hz⟩ := Option.isSome_iff_exists.mp (hC hc)
  simp [hx, hy, hz] at h1 h2 ⊢
  omega

theorem cmpFmt_le_total {x y : VideoFormat} (h : ¬cmpFmt y x < 0) : cmpFmt x y ≤ 0 := by
  rw [cmpFmt_neg]
  omega

theorem pairwise_le_insertFmt {x : VideoFormat} :
    ∀ {l : List VideoFormat}, videoParses x → (∀ f ∈ l, videoParses f) →
      List.Pairwise (fun a b => cmpFmt a b ≤ 0) l →
      List.Pairwise (fun a b => cmpFmt a b ≤ 0) (insertFmt x l)
  | [], _, _, _ => by simp [insertFmt]
  | y :: ys, hx, hl, hpair => by
    rw [List.pairwise_cons] at hpair
    obtain ⟨hy, hys⟩ := hpair
    rw [insertFmt]
    by_cases hc : cmpFmt y x < 0
    · rw [if_pos hc]
      rw [List.pairwise_cons]
      constructor
      · intro z hz
        rcases mem_insertFmt.mp hz with rfl | hz
        · omega
        · exact hy z hz
      · exact pairwise_le_insertFmt hx (fun f hf => hl f (List.mem_cons_of_mem y hf)) hys
    · rw [if_neg hc]
      rw [List.pairwise_cons]
      constructor
      · intro z hz
        rcases List.mem_cons.mp hz with rfl | hz
        · exact cmpFmt_le_total hc
        · exact cmpFmt_trans_le hx (hl y (List.mem_cons_self y ys))
            (hl z (List.mem_cons_of_mem y hz)) (cmpFmt_le_total hc) (hy z hz)
      · rw [List.pairwise_cons]
        exact ⟨hy, hys⟩

theorem pairwise_le_sortFmts : ∀ {l : List VideoFormat},
    (∀ f ∈ l, videoParses f) →
    List.Pairwise (fun a b => cmpFmt a b ≤ 0) (sortFmts l)
  | [], _ => List.Pairwise.nil
  | x :: xs, hl => by
    rw [sortFmts]
    exact pairwise_le_insertFmt (hl x (List.mem_cons_self x xs))
      (fun f hf => hl f (List.mem_cons_of_mem x (mem_sortFmts.mp hf)))
      (pairwise_le_sortFmts fun f hf => hl f (List.mem_cons_of_mem x hf))

theorem filter_insertFmt_notq {x : VideoFormat} {l : List VideoFormat}
    {q : VideoFormat → Bool} (hqx : q x = false) :
    (insertFmt x l).filter q = l.filter q := by
  obtain ⟨pre, post, h1, h2, _⟩ := insertFmt_split x l
  rw [h2, h1, List.filter_append, List.filter_append, List.filter_cons, hqx]
  simp

theorem filter_insertFmt_q {x : VideoFormat} {l : List VideoFormat}
    {q : VideoFormat → Bool} (hqx : q x = true)
    (hcomp : ∀ y ∈ l, q y = true → ¬cmpFmt y x < 0) :
    (insertFmt x l).filter q = x :: l.filter q := by
  obtain ⟨pre, post, h1, h2, h3⟩ := insertFmt_split x l
  have hpre : pre.filter q = [] := by
    rw [List.filter_eq_nil_iff]
    intro y hy
    intro hq
    exact absurd (h3 y hy)
      (hcomp y (by rw [h1]; exact List.mem_append_left _ hy) hq)
  rw [h2, h1, List.filter_append, List.filter_append, List.filter_cons, hqx, hpre]
  simp

theorem cmpFmt_tie_trans {x0 x y : VideoFormat}
    (hx0 : videoParses x0) (hx : videoParses x) (hy : videoParses y)
    (h1 : cmpFmt x0 x = 0) (h2 : cmpFmt x0 y = 0) : cmpFmt y x = 0 := by
  have a1 : cmpFmt y x ≤ 0 := by
    apply cmpFmt_trans_le hy hx0 hx ?_ (by omega)
    rw [cmpFmt_neg, h2]
    omega
  have a2 : cmpFmt x y ≤ 0 := by
    apply cmpFmt_trans_le hx hx0 hy ?_ (by omega)
    rw [cmpFmt_neg, h1]
    omega
  rw [cmpFmt_neg] at a2
  omega

theorem filter_tie_sortFmts {x0 : VideoFormat} (hx0 : videoParses x0) :
    ∀ {l : List VideoFormat}, (∀ f ∈ l, videoParses f) →
      (sortFmts l).filter (fun y => decide (cmpFmt x0 y = 0)) =
        l.filter (fun y => decide (cmpFmt x0 y = 0))
  | [], _ => rfl
  | x :: xs, hl => by
    rw [sortFmts]
    have hxs : ∀ f ∈ xs, videoParses f := fun f hf => hl f (List.mem_cons_of_mem x hf)
    by_cases hqx : cmpFmt x0 x = 0
    · rw [filter_insertFmt_q (by simp [hqx]) ?hcomp]
      case hcomp =>
        intro y hy hq
        rw [decide_eq_true_eq] at hq
        have := cmpFmt_tie_trans hx0 (hl x (List.mem_cons_self x xs))
          (hxs y (mem_sortFmts.mp hy)) hqx hq
        omega
      rw [filter_tie_sortFmts hx0 hxs, List.filter_cons]
      simp [hqx]
    · rw [filter_insertFmt_notq (by simp [hqx]), filter_tie_sortFmts hx0 hxs,
        List.filter_cons]
      simp [hqx]

theorem claimOrd_of_le {a b : VideoFormat} (hb : videoParses b)
    (ha : videoParses a) (h : cmpFmt a b ≤ 0) : claimOrd a b := by
  cases hva : a.hasVideo <;> cases hvb : b.hasVideo
  · exact Or.inr (Or.inr ⟨hva, hvb, by simp [cmpFmt, hva, hvb] at h; omega⟩)
  · simp [cmpFmt, hva, hvb] at h
  · exact Or.inl ⟨hva, hvb⟩
  · refine Or.inr (Or.inl ⟨hva, hvb, ?_⟩)
    obtain ⟨x, hx⟩ := Option.isSome_iff_exists.mp (ha hva)
    obtain ⟨y, hy⟩ := Option.isSome_iff_exists.mp (hb hvb)
    simp [cmpFmt, hva, hvb, hx, hy] at h
    simp [resVal, hx, hy]
    omega

theorem pairwise_claimOrd_sortFmts {l : List VideoFormat}
    (hl : ∀ f ∈ l, videoParses f) :
    List.Pairwise claimOrd (sortFmts l) := by
  have hp := pairwise_le_sortFmts hl
  apply List.Pairwise.imp_of_mem ?_ hp
  intro a b hma hmb h
  exact claimOrd_of_le (hl b (mem_sortFmts.mp hmb)) (hl a (mem_sortFmts.mp hma)) h

/-! ## The claims -/

/-- C1: for every valid 11-character identifier (characters in
`[A-Za-z0-9_-]`) embedded in any of the six recognized URL shapes — full
watch URL, youtu.be short link, embed URL, shorts URL, `/v/` URL, or the
bare identifier alone — `extractVideoId` returns exactly that
identifier. -/
theorem C1_extractVideoId_six_shapes (v : List Char) (hlen : v.length = 11)
    (hv : ∀ c ∈ v, idChar c = true) :
    Info.extractVideoId ("https://www.youtube.com/watch?v=" ++ v.asString) =
        some v.asString ∧
    Info.extractVideoId ("https://youtu.be/" ++ v.asString) = some v.asString ∧
    Info.extractVideoId ("https://www.youtube.com/embed/" ++ v.asString) =
        some v.asString ∧
    Info.extractVideoId ("https://www.youtube.com/shorts/" ++ v.asString) =
        some v.asString ∧
    Info.extractVideoId ("https://www.youtube.com/v/" ++ v.asString) =
        some v.asString ∧
    Info.extractVideoId v.asString = some v.asString :=
  ⟨extract_watch hlen hv, extract_ytb hlen hv, extract_embed hlen hv,
   extract_shorts hlen hv, extract_vslash hlen hv, extract_bare hlen hv⟩

/-- Witness for C1 at the identifier dQw4w9WgXcQ. -/
theorem C1_extractVideoId_six_shapes_witness :
    ("dQw4w9WgXcQ".toList.length = 11 ∧
      (∀ c ∈ "dQw4w9WgXcQ".toList, idChar c = true)) ∧
    (Info.extractVideoId
        ("https://www.youtube.com/watch?v=" ++ "dQw4w9WgXcQ".toList.asString) =
        some "dQw4w9WgXcQ".toList.asString ∧
      Info.extractVideoId ("https://youtu.be/" ++ "dQw4w9WgXcQ".toList.asString) =
        some "dQw4w9WgXcQ".toList.asString ∧
      Info.extractVideoId
          ("https://www.youtube.com/embed/" ++ "dQw4w9WgXcQ".toList.asString) =
        some "dQw4w9WgXcQ".toList.asString ∧
      Info.extractVideoId
          ("https://www.youtube.com/shorts/" ++ "dQw4w9WgXcQ".toList.asString) =
        some "dQw4w9WgXcQ".toList.asString ∧
      Info.extractVideoId
          ("https://www.youtube.com/v/" ++ "dQw4w9WgXcQ".toList.asString) =
        some "dQw4w9WgXcQ".toList.asString ∧
      Info.extractVideoId "dQw4w9WgXcQ".toList.asString =
        some "dQw4w9WgXcQ".toList.asString) :=
  ⟨⟨by decide, by decide⟩,
   C1_extractVideoId_six_shapes "dQw4w9WgXcQ".toList (by decide) (by decide)⟩

/-- C2 counterexample: the claim that every non-null result of
`extractVideoId` consists of characters from `[A-Za-z0-9_-]` is false:
the five URL patterns capture the wider class `[^"&?\/\s]`, so
`youtu.be/ab.de.gh.jk` yields a result containing `'.'`. -/
theorem C2_counterexample :
    Info.extractVideoId "youtu.be/ab.de.gh.jk" = some "ab.de.gh.jk" ∧
    '.' ∈ ("ab.de.gh.jk" : String).toList ∧ idChar '.' = false :=
  ⟨by decide, by decide, by decide⟩

/-- C2 (amended): every non-null result of `extractVideoId` is exactly 11
characters long, each drawn from the capture class `[^"&?\/\s]` (any
character other than `"`, `&`, `?`, `/` and whitespace) — not from the
narrower `[A-Za-z0-9_-]` the claim states. -/
theorem C2_extract_result_shape {s out : String}
    (h : Info.extractVideoId s = some out) :
    out.toList.length = 11 ∧ (∀ c ∈ out.toList, capCls c = true) :=
  extract_sound h

/-- Witness for C2 (amended) at a bare identifier input. -/
theorem C2_extract_result_shape_witness :
    Info.extractVideoId "dQw4w9WgXcQ" = some "dQw4w9WgXcQ" ∧
    (("dQw4w9WgXcQ" : String).toList.length = 11 ∧
      (∀ c ∈ ("dQw4w9WgXcQ" : String).toList, capCls c = true)) :=
  ⟨by decide, C2_extract_result_shape (s := "dQw4w9WgXcQ") (by decide)⟩

/-- C3: the `/info` handler responds 400 exactly when the `url` query
parameter is missing or empty, or `extractVideoId` returns null on it;
and in every 400 case no outbound provider call (neither primary nor
fallback) is made. -/
theorem C3_info_400_iff (url : Option String)
    (fetchRapid : String → Except String RapidData)
    (fetchOEmbed : String → Except String OEmbedData) :
    ((infoGET url fetchRapid fetchOEmbed).status = 400 ↔
      (url = none ∨ url = some "" ∨
        ∃ u, url = some u ∧ Info.extractVideoId u = none)) ∧
    ((infoGET url fetchRapid fetchOEmbed).status = 400 →
      (infoGET url fetchRapid fetchOEmbed).calls = []) := by
  cases url with
  | none => simp [infoGET]
  | some u =>
    by_cases hu : u = ""
    · subst hu
      simp [infoGET]
    · cases hx : Info.extractVideoId u with
      | none => simp [infoGET, hu, hx]
      | some vid =>
        cases hr : fetchRapid vid with
        | ok d => simp [infoGET, hu, hx, hr]
        | error e =>
          cases ho : fetchOEmbed vid with
          | ok od => simp [infoGET, hu, hx, hr, ho]
          | error e2 => simp [infoGET, hu, hx, hr, ho]

/-- Witness for C3 at the unparseable input "not a url". -/
theorem C3_info_400_iff_witness :
    (infoGET (some "not a url") (fun _ => Except.error "down")
        (fun _ => Except.error "down")).status = 400 ∧
    (infoGET (some "not a url") (fun _ => Except.error "down")
        (fun _ => Except.error "down")).calls = [] := by
  have h := C3_info_400_iff (some "not a url") (fun _ => Except.error "down")
    (fun _ => Except.error "down")
  have h400 := h.1.mpr (Or.inr (Or.inr ⟨"not a url", rfl, by decide⟩))
  exact ⟨h400, h.2 h400⟩

/-- C4: whenever the primary provider call fails, the fallback provider is
attempted exactly once; if the fallback succeeds the response is 200 and
carries exactly two synthesized formats — one combined 360p MP4 video
entry and one 128 kbps audio entry — with `lengthSeconds = "0"`,
`viewCount = "0"`, and `contentLength = "0"` on both formats. -/
theorem C4_fallback_once (u vid e : String)
    (fetchRapid : String → Except String RapidData)
    (fetchOEmbed : String → Except String OEmbedData)
    (hne : u ≠ "") (hx : Info.extractVideoId u = some vid)
    (hr : fetchRapid vid = Except.error e) :
    ((infoGET (some u) fetchRapid fetchOEmbed).calls.countP
        ProviderCall.isFallback = 1) ∧
    (∀ od, fetchOEmbed vid = Except.ok od →
      (infoGET (some u) fetchRapid fetchOEmbed).status = 200 ∧
      (infoGET (some u) fetchRapid fetchOEmbed).body =
        InfoBody.ok { videoId := vid, title := od.title, author := od.author_name,
                      lengthSeconds := "0", viewCount := "0",
                      thumbnailUrl := od.thumbnail_url, formats := fallbackFormats } ∧
      fallbackFormats.length = 2 ∧
      (∃ f1 f2, fallbackFormats = [f1, f2] ∧
        f1.hasVideo = true ∧ f1.hasAudio = true ∧ f1.qualityLabel = "360p" ∧
        f1.mimeType = "video/mp4" ∧ f1.contentLength = some "0" ∧
        f2.hasVideo = false ∧ f2.hasAudio = true ∧ f2.qualityLabel = "Audio Only" ∧
        f2.bitrate = 128000 ∧ f2.mimeType = "audio/mp4" ∧
        f2.contentLength = some "0")) := by
  constructor
  · cases ho : fetchOEmbed vid with
    | ok od => simp [infoGET, hne, hx, hr, ho, List.countP, List.countP.go,
        ProviderCall.isFallback]
    | error e2 => simp [infoGET, hne, hx, hr, ho, List.countP, List.countP.go,
        ProviderCall.isFallback]
  · intro od ho
    refine ⟨by simp [infoGET, hne, hx, hr, ho], by simp [infoGET, hne, hx, hr, ho], by decide, ?_⟩
    exact ⟨_, _, rfl, rfl, rfl, rfl, rfl, rfl, rfl, rfl, rfl, rfl, rfl, rfl⟩

/-- Witness for C4 with a failing primary and a succeeding oEmbed stub. -/
theorem C4_fallback_once_witness :
    ("https://youtu.be/dQw4w9WgXcQ" ≠ "" ∧
      Info.extractVideoId "https://youtu.be/dQw4w9WgXcQ" = some "dQw4w9WgXcQ") ∧
    (infoGET (some "https://youtu.be/dQw4w9WgXcQ")
        (fun _ => Except.error "429") (fun _ => Except.ok sampleOEmbed)).calls.countP
      ProviderCall.isFallback = 1 ∧
    (infoGET (some "https://youtu.be/dQw4w9WgXcQ")
        (fun _ => Except.error "429") (fun _ => Except.ok sampleOEmbed)).status = 200 := by
  have h := C4_fallback_once "https://youtu.be/dQw4w9WgXcQ" "dQw4w9WgXcQ" "429"
    (fun _ => Except.error "429") (fun _ => Except.ok sampleOEmbed)
    (by decide) (by decide) rfl
  exact ⟨⟨by decide, by decide⟩, h.1, (h.2 sampleOEmbed rfl).1⟩

/-- C5: when both the primary provider and the fallback fail for an
extractable identifier, the handler responds 500 with the error message
"All methods failed to fetch video information", which contains
"failed". -/
theorem C5_both_fail_500 (u vid e1 e2 : String)
    (fetchRapid : String → Except String RapidData)
    (fetchOEmbed : String → Except String OEmbedData)
    (hne : u ≠ "") (hx : Info.extractVideoId u = some vid)
    (hr : fetchRapid vid = Except.error e1)
    (ho : fetchOEmbed vid = Except.error e2) :
    (infoGET (some u) fetchRapid fetchOEmbed).status = 500 ∧
    (infoGET (some u) fetchRapid fetchOEmbed).body =
      InfoBody.err "All methods failed to fetch video information" ∧
    (∃ pre post : String,
      "All methods failed to fetch video information" =
        pre ++ "failed" ++ post) := by
  refine ⟨by simp [infoGET, hne, hx, hr, ho], by simp [infoGET, hne, hx, hr, ho], ?_⟩
  exact ⟨"All methods ", " to fetch video information", rfl⟩

/-- Witness for C5 with both provider stubs failing. -/
theorem C5_both_fail_500_witness :
    (infoGET (some "https://youtu.be/dQw4w9WgXcQ")
        (fun _ => Except.error "429") (fun _ => Except.error "403")).status = 500 ∧
    (infoGET (some "https://youtu.be/dQw4w9WgXcQ")
        (fun _ => Except.error "429") (fun _ => Except.error "403")).body =
      InfoBody.err "All methods failed to fetch video information" := by
  have h := C5_both_fail_500 "https://youtu.be/dQw4w9WgXcQ" "dQw4w9WgXcQ" "429" "403"
    (fun _ => Except.error "429") (fun _ => Except.error "403")
    (by decide) (by decide) rfl rfl
  exact ⟨h.1, h.2.1⟩

/-- C6 counterexample: the claim says a video format whose `qualityLabel`
does not parse sorts as resolution 0, so `720p` should come first; in the
code `parseInt` yields NaN, the comparator result is NaN, and ECMAScript
`SortCompare` treats that as a tie, so the stable sort keeps the
unparseable-label format first — the output violates the claim's order
relation `claimOrd`. -/
theorem C6_counterexample :
    resVal fmtJunkLabel = 0 ∧ resVal fmt720p = 720 ∧
    fmtJunkLabel.hasVideo = true ∧ fmt720p.hasVideo = true ∧
    sortFmts [fmtJunkLabel, fmt720p] = [fmtJunkLabel, fmt720p] ∧
    ¬claimOrd fmtJunkLabel fmt720p := by
  refine ⟨by decide, by decide, by decide, by decide, by decide, ?_⟩
  intro h
  rcases h with ⟨_, h⟩ | ⟨_, _, h⟩ | ⟨h, _⟩ <;> revert h <;> decide

/-- C6 (amended): provided every video item's `qualityLabel` has a
parseable leading number (the `|| '0'` default covers an empty segment
before `p`; labels with no parseable number instead make the comparator
return 0, a tie), the normalized list is a permutation of the input,
totally ordered with all video formats before all audio formats, higher
resolution first among video and higher bitrate first among audio, and
formats comparing equal keep their original relative order (stability,
expressed by filtering either list to any tie class). -/
theorem C6_sort_order (vs : List RawVideoItem) (aud : List RawAudioItem)
    (hp : ∀ it ∈ vs, (resOf (videoItemToFormat it)).isSome = true) :
    List.Perm
      (sortFmts (vs.map videoItemToFormat ++ aud.map audioItemToFormat))
      (vs.map videoItemToFormat ++ aud.map audioItemToFormat) ∧
    List.Pairwise claimOrd
      (sortFmts (vs.map videoItemToFormat ++ aud.map audioItemToFormat)) ∧
    (∀ x0, videoParses x0 →
      (sortFmts (vs.map videoItemToFormat ++ aud.map audioItemToFormat)).filter
          (fun y => decide (cmpFmt x0 y = 0)) =
        (vs.map videoItemToFormat ++ aud.map audioItemToFormat).filter
          (fun y => decide (cmpFmt x0 y = 0))) := by
  have hl : ∀ f ∈ vs.map videoItemToFormat ++ aud.map audioItemToFormat,
      videoParses f := by
    intro f hf
    rcases List.mem_append.mp hf with h | h
    · rcases List.mem_map.mp h with ⟨it, hit, rfl⟩
      exact fun _ => hp it hit
    · rcases List.mem_map.mp h with ⟨it, _, rfl⟩
      intro hcontra
      cases hcontra
  exact ⟨sortFmts_perm _, pairwise_claimOrd_sortFmts hl,
    fun x0 hx0 => filter_tie_sortFmts hx0 hl⟩

/-- Witness for C6 (amended) at the specification's example: 480p/720p
video items and 128k/256k audio items normalize to
[720p, 480p, 256k, 128k]. -/
theorem C6_sort_order_witness :
    (∀ it ∈ [vi480, vi720], (resOf (videoItemToFormat it)).isSome = true) ∧
    List.Pairwise claimOrd
      (sortFmts ([vi480, vi720].map videoItemToFormat ++
        [ai128, ai256].map audioItemToFormat)) ∧
    sortFmts ([vi480, vi720].map videoItemToFormat ++
        [ai128, ai256].map audioItemToFormat) =
      [videoItemToFormat vi720, videoItemToFormat vi480,
       audioItemToFormat ai256, audioItemToFormat ai128] :=
  ⟨by decide,
   (C6_sort_order [vi480, vi720] [ai128, ai256] (by decide)).2.1,
   by decide⟩

/-- C7 counterexample: a provider-supplied MIME type on an audio item is
not kept — the normalizer always synthesizes
`"audio/" + (container || "mp3")`, overriding `audio/opus` with
`audio/m4a` here. -/
theorem C7_counterexample :
    audioItemWithMime.mimeType = some "audio/opus" ∧
    (audioItemToFormat audioItemWithMime).mimeType = "audio/m4a" ∧
    (audioItemToFormat audioItemWithMime).mimeType ≠ "audio/opus" :=
  ⟨by decide, by decide, by decide⟩

/-- C7 (amended): each video item maps to a Format with `hasVideo = true`
and `hasAudio` true exactly when `audioQuality` is present (the
provider-supplied video MIME type is kept verbatim); each audio item maps
to `hasVideo = false`, `hasAudio = true`, `qualityLabel = "Audio Only"`,
and a MIME type that is always synthesized as
`"audio/" + (container || "mp3")` — a provider-supplied audio MIME type
is ignored, and the `mp3` default fires when `container` is absent or
empty. -/
theorem C7_normalizer_fields (vi : RawVideoItem) (ai : RawAudioItem) :
    (videoItemToFormat vi).hasVideo = true ∧
    (videoItemToFormat vi).hasAudio = vi.audioQuality.isSome ∧
    (videoItemToFormat vi).mimeType = vi.mimeType ∧
    (audioItemToFormat ai).hasVideo = false ∧
    (audioItemToFormat ai).hasAudio = true ∧
    (audioItemToFormat ai).qualityLabel = "Audio Only" ∧
    (audioItemToFormat ai).mimeType = "audio/" ++ jsOrStr ai.container "mp3" :=
  ⟨rfl, rfl, rfl, rfl, rfl, rfl, rfl⟩

theorem mem_rawFormats {d : RapidData} {f : VideoFormat} (hf : f ∈ rawFormats d) :
    f.hasVideo = true ∨ f.hasAudio = true := by
  rw [rawFormats] at hf
  rcases List.mem_append.mp hf with h | h
  · cases hv : d.videos with
    | none => simp only [hv] at h; cases h
    | some w =>
      simp only [hv] at h
      cases hw : w.items with
      | none => simp only [hw] at h; cases h
      | some items =>
        simp only [hw] at h
        rcases List.mem_map.mp h with ⟨it, _, rfl⟩
        exact Or.inl rfl
  · cases hv : d.audios with
    | none => simp only [hv] at h; cases h
    | some w =>
      simp only [hv] at h
      cases hw : w.items with
      | none => simp only [hw] at h; cases h
      | some items =>
        simp only [hw] at h
        rcases List.mem_map.mp h with ⟨it, _, rfl⟩
        exact Or.inr rfl

/-- C9: in every successful (200) `/info` response — primary-provider path
or fallback path — every Format in the `formats` list has at least one of
`hasVideo`, `hasAudio` equal to `true`. -/
theorem C9_formats_flagged (url : Option String)
    (fetchRapid : String → Except String RapidData)
    (fetchOEmbed : String → Except String OEmbedData) (p : InfoOk)
    (hs : (infoGET url fetchRapid fetchOEmbed).status = 200)
    (hb : (infoGET url fetchRapid fetchOEmbed).body = InfoBody.ok p) :
    ∀ f ∈ p.formats, f.hasVideo = true ∨ f.hasAudio = true := by
  cases url with
  | none => simp [infoGET] at hs
  | some u =>
    by_cases hu : u = ""
    · subst hu
      simp [infoGET] at hs
    · cases hx : Info.extractVideoId u with
      | none => simp [infoGET, hu, hx] at hs
      | some vid =>
        cases hr : fetchRapid vid with
        | ok d =>
          simp [infoGET, hu, hx, hr] at hb
          intro f hf
          rw [← hb] at hf
          exact mem_rawFormats (mem_sortFmts.mp hf)
        | error e =>
          cases ho : fetchOEmbed vid with
          | ok od =>
            simp [infoGET, hu, hx, hr, ho] at hb
            intro f hf
            rw [← hb] at hf
            rcases List.mem_cons.mp hf with rfl | hf
            · exact Or.inl rfl
            · rcases List.mem_cons.mp hf with rfl | hf
              · exact Or.inr rfl
              · cases hf
          | error e2 => simp [infoGET, hu, hx, hr, ho] at hs

/-- Witness for C9 on the fallback path. -/
theorem C9_formats_flagged_witness :
    ((infoGET (some "https://youtu.be/dQw4w9WgXcQ")
        (fun _ => Except.error "429") (fun _ => Except.ok sampleOEmbed)).status = 200 ∧
      (infoGET (some "https://youtu.be/dQw4w9WgXcQ")
          (fun _ => Except.error "429") (fun _ => Except.ok sampleOEmbed)).body =
        InfoBody.ok { videoId := "dQw4w9WgXcQ", title := sampleOEmbed.title,
                      author := sampleOEmbed.author_name, lengthSeconds := "0",
                      viewCount := "0", thumbnailUrl := sampleOEmbed.thumbnail_url,
                      formats := fallbackFormats }) ∧
    (∀ f ∈ ({ videoId := "dQw4w9WgXcQ", title := sampleOEmbed.title,
              author := sampleOEmbed.author_name, lengthSeconds := "0",
              viewCount := "0", thumbnailUrl := sampleOEmbed.thumbnail_url,
              formats := fallbackFormats } : InfoOk).formats,
      f.hasVideo = true ∨ f.hasAudio = true) :=
  ⟨⟨by decide, by decide⟩,
   C9_formats_flagged (some "https://youtu.be/dQw4w9WgXcQ")
     (fun _ => Except.error "429") (fun _ => Except.ok sampleOEmbed) _
     (by decide) (by decide)⟩

/-- C8 counterexample: the claim says `/download` returns 400 exactly when
neither `url` nor `videoId` is supplied (or no `videoId` is supplied and
the url is unparseable); here `videoId` is supplied as the empty string
and there is no `url`, yet the handler returns 400 because it uses JS
truthiness, under which an empty parameter counts as absent. -/
theorem C8_counterexample :
    downloadGET none none none (some "") =
      DlResult.badRequest "URL or videoId parameter is required" ∧
    (some "" : Option String) ≠ none :=
  ⟨by decide, by decide⟩

/-- C8 (amended): with "supplied" read as JS-truthy (present and
non-empty): the handler returns 400 exactly when neither parameter is
truthy, or `videoId` is not truthy and the truthy `url` cannot be parsed;
a truthy `videoId` takes precedence over `url`; `format=mp3` redirects to
the fixed mirror path containing the identifier verbatim; otherwise the
redirect contains the identifier and, when `itag` is truthy, the itag
verbatim, falling back to the mirror's default best-quality path. -/
theorem C8_download_behavior (url itag format videoId : Option String) :
    ((∃ msg, downloadGET url itag format videoId = DlResult.badRequest msg) ↔
      ((truthy url = false ∧ truthy videoId = false) ∨
       (truthy videoId = false ∧ truthy url = true ∧
         Download.extractVideoId (url.getD "") = none))) ∧
    (truthy videoId = true →
      (format = some "mp3" →
        downloadGET url itag format videoId =
          DlResult.redirect ("https://www.y2mate.com/youtube-mp3/" ++ videoId.getD "")) ∧
      (format ≠ some "mp3" → truthy itag = true →
        downloadGET url itag format videoId =
          DlResult.redirect
            ("https://www.y2mate.com/youtube/" ++ videoId.getD "" ++ "/mp4/" ++ itag.getD "")) ∧
      (format ≠ some "mp3" → truthy itag = false →
        downloadGET url itag format videoId =
          DlResult.redirect ("https://www.y2mate.com/youtube/" ++ videoId.getD ""))) ∧
    (∀ eid, truthy videoId = false → truthy url = true →
      Download.extractVideoId (url.getD "") = some eid →
      (format = some "mp3" →
        downloadGET url itag format videoId =
          DlResult.redirect ("https://www.y2mate.com/youtube-mp3/" ++ eid)) ∧
      (format ≠ some "mp3" → truthy itag = true →
        downloadGET url itag format videoId =
          DlResult.redirect
            ("https://www.y2mate.com/youtube/" ++ eid ++ "/mp4/" ++ itag.getD "")) ∧
      (format ≠ some "mp3" → truthy itag = false →
        downloadGET url itag format videoId =
          DlResult.redirect ("https://www.y2mate.com/youtube/" ++ eid))) := by
  refine ⟨?_, ?_, ?_⟩
  · cases hu : truthy url <;> cases hv : truthy videoId
    · simp [downloadGET, hu, hv]
    · by_cases hf : format = some "mp3"
      · simp [downloadGET, hu, hv, hf]
      · cases hi : truthy itag <;> simp [downloadGET, hu, hv, hf, hi]
    · cases hx : Download.extractVideoId (url.getD "") with
      | none => simp [downloadGET, hu, hv, hx]
      | some eid =>
        by_cases hf : format = some "mp3"
        · simp [downloadGET, hu, hv, hx, hf]
        · cases hi : truthy itag <;> simp [downloadGET, hu, hv, hx, hf, hi]
    · by_cases hf : format = some "mp3"
      · simp [downloadGET, hu, hv, hf]
      · cases hi : truthy itag <;> simp [downloadGET, hu, hv, hf, hi]
  · intro hv
    refine ⟨?_, ?_, ?_⟩
    · intro hf
      cases hu : truthy url <;> simp [downloadGET, hu, hv, hf]
    · intro hf hi
      cases hu : truthy url <;> simp [downloadGET, hu, hv, hf, hi]
    · intro hf hi
      cases hu : truthy url <;> simp [downloadGET, hu, hv, hf, hi]
  · intro eid hv hu hx
    refine ⟨?_, ?_, ?_⟩
    · intro hf
      simp [downloadGET, hu, hv, hx, hf]
    · intro hf hi
      simp [downloadGET, hu, hv, hx, hf, hi]
    · intro hf hi
      simp [downloadGET, hu, hv, hx, hf, hi]

/-- Witness for C8 at concrete inputs, covering the mp3 path with a truthy
videoId, the mp3 path via url parsing, and the mp4 path with an itag. -/
theorem C8_download_behavior_witness :
    downloadGET (some "https://www.youtube.com/watch?v=dQw4w9WgXcQ") none
        (some "mp3") (some "abcdefghijk") =
      DlResult.redirect ("https://www.y2mate.com/youtube-mp3/" ++ "abcdefghijk") ∧
    downloadGET (some "https://www.youtube.com/watch?v=dQw4w9WgXcQ") none
        (some "mp3") none =
      DlResult.redirect ("https://www.y2mate.com/youtube-mp3/" ++ "dQw4w9WgXcQ") ∧
    downloadGET none (some "22") (some "mp4") (some "abcdefghijk") =
      DlResult.redirect
        ("https://www.y2mate.com/youtube/" ++ "abcdefghijk" ++ "/mp4/" ++ "22") := by
  refine ⟨?_, ?_, ?_⟩
  · exact ((C8_download_behavior (some "https://www.youtube.com/watch?v=dQw4w9WgXcQ")
      none (some "mp3") (some "abcdefghijk")).2.1 (by decide)).1 rfl
  · exact (((C8_download_behavior (some "https://www.youtube.com/watch?v=dQw4w9WgXcQ")
      none (some "mp3") none).2.2 "dQw4w9WgXcQ" (by decide) (by decide) (by decide)).1) rfl
  · exact (((C8_download_behavior none (some "22") (some "mp4")
      (some "abcdefghijk")).2.1 (by decide)).2.1 (by decide) (by decide))

/-- C10: the `extractVideoId` function of the `/info` route and the one of
the `/download` route are extensionally equal — the two source
definitions are character-for-character identical. -/
theorem C10_routes_extract_agree :
    ∀ s : String, Info.extractVideoId s = Download.extractVideoId s :=
  fun _ => rfl
